import Mathlib

/-!
Verification of the skill-gap engine of the developer-roadmap-validator
repository: the static prerequisite graphs with the learning-order and
next-step algorithms, the TTL+LRU cache service, and the validation
service (gap computation, demand categorization, coverage).

JavaScript is embedded shallowly: objects become association lists or
structures, `Map` becomes an insertion-ordered association list,
timestamps become explicit `Nat` arguments, and functions that can throw
return `Option`.
-/

/-! ## Prerequisite graphs (src/config/prerequisites.js) -/

/-- A prerequisite graph: skill name → direct prerequisite names. -/
abbrev Graph := List (String × List String)

/-- The `frontend` table of `PREREQUISITES`. -/
def frontendPrereqs : Graph := [
  ("HTML", []),
  ("CSS", ["HTML"]),
  ("JavaScript", ["HTML"]),
  ("CSS Flexbox", ["CSS"]),
  ("CSS Grid", ["CSS"]),
  ("Responsive Design", ["CSS", "CSS Flexbox"]),
  ("Sass/SCSS", ["CSS"]),
  ("CSS-in-JS", ["CSS", "JavaScript"]),
  ("Tailwind CSS", ["CSS"]),
  ("ES6+", ["JavaScript"]),
  ("DOM Manipulation", ["JavaScript"]),
  ("Event Handling", ["JavaScript", "DOM Manipulation"]),
  ("Promises", ["JavaScript", "ES6+"]),
  ("Async/Await", ["Promises"]),
  ("Fetch API", ["Promises", "Async/Await"]),
  ("React", ["JavaScript", "ES6+", "HTML", "CSS"]),
  ("Component Architecture", ["React"]),
  ("React Hooks", ["React", "Component Architecture"]),
  ("State Management", ["React", "React Hooks"]),
  ("npm/yarn", ["JavaScript"]),
  ("Babel", ["JavaScript", "ES6+"]),
  ("Webpack", ["npm/yarn", "JavaScript"]),
  ("Vite", ["npm/yarn", "JavaScript"]),
  ("Git", []),
  ("GitHub", ["Git"]),
  ("Local Storage", ["JavaScript"]),
  ("Web Storage", ["JavaScript"]),
  ("Browser DevTools", ["HTML", "CSS", "JavaScript"]),
  ("Browser Compatibility", ["HTML", "CSS", "JavaScript"]),
  ("Performance Optimization", ["JavaScript", "React"]),
  ("Lazy Loading", ["JavaScript", "React"]),
  ("Code Splitting", ["Webpack", "React"]),
  ("Unit Testing", ["JavaScript"]),
  ("Jest", ["JavaScript", "Unit Testing"]),
  ("React Testing Library", ["React", "Jest"]),
  ("Web Accessibility", ["HTML", "CSS"]),
  ("ARIA", ["HTML", "Web Accessibility"]),
  ("TypeScript", ["JavaScript", "ES6+"]),
  ("SEO Basics", ["HTML"]),
  ("Progressive Web Apps", ["JavaScript", "Service Workers", "Fetch API"]),
  ("Web Components", ["JavaScript", "HTML", "CSS"])]

/-- The `backend` table of `PREREQUISITES`. -/
def backendPrereqs : Graph := [
  ("JavaScript", []),
  ("Node.js", ["JavaScript"]),
  ("JSON", ["JavaScript"]),
  ("HTTP/HTTPS", []),
  ("Express.js", ["Node.js", "JavaScript"]),
  ("Middleware", ["Express.js"]),
  ("Routing", ["Express.js"]),
  ("REST APIs", ["HTTP/HTTPS", "JSON"]),
  ("RESTful Design", ["REST APIs", "Express.js"]),
  ("API Versioning", ["RESTful Design"]),
  ("GraphQL", ["JavaScript", "REST APIs"]),
  ("Error Handling", ["Express.js", "REST APIs"]),
  ("API Testing", ["REST APIs", "Unit Testing"]),
  ("SQL", []),
  ("Database Design", ["SQL"]),
  ("PostgreSQL", ["SQL", "Database Design"]),
  ("MySQL", ["SQL", "Database Design"]),
  ("MongoDB", ["JSON"]),
  ("ORMs", ["SQL", "Node.js"]),
  ("Redis", ["Node.js"]),
  ("Authentication", ["Express.js", "HTTP/HTTPS"]),
  ("Authorization", ["Authentication"]),
  ("JWT", ["Authentication", "JSON"]),
  ("OAuth", ["Authentication"]),
  ("Encryption", ["JavaScript"]),
  ("HTTPS/TLS", ["HTTP/HTTPS"]),
  ("Promises", ["JavaScript"]),
  ("Async/Await", ["Promises", "JavaScript"]),
  ("Event Loop", ["JavaScript", "Node.js"]),
  ("Unit Testing", ["JavaScript"]),
  ("Integration Testing", ["Unit Testing", "Express.js"]),
  ("Jest", ["JavaScript", "Unit Testing"]),
  ("Environment Variables", ["Node.js"]),
  ("Logging", ["Node.js"]),
  ("Deployment", ["Node.js", "Environment Variables"]),
  ("CI/CD Basics", ["Git", "Deployment"]),
  ("Docker", ["Node.js", "Deployment"]),
  ("Caching", ["Node.js"]),
  ("Rate Limiting", ["Express.js"]),
  ("Load Balancing", ["Deployment"]),
  ("Git", []),
  ("GitHub", ["Git"]),
  ("Message Queues", ["Node.js", "Async/Await"]),
  ("Microservices", ["REST APIs", "Docker"]),
  ("WebSockets", ["Node.js", "HTTP/HTTPS"]),
  ("TypeScript", ["JavaScript"])]

/-- The `fullstack` table of `PREREQUISITES`. -/
def fullstackPrereqs : Graph := [
  ("HTML", []),
  ("CSS", ["HTML"]),
  ("JavaScript", ["HTML"]),
  ("Git", []),
  ("GitHub", ["Git"]),
  ("Responsive Design", ["CSS", "CSS Flexbox"]),
  ("CSS Flexbox", ["CSS"]),
  ("CSS Grid", ["CSS"]),
  ("Browser DevTools", ["HTML", "CSS", "JavaScript"]),
  ("ES6+", ["JavaScript"]),
  ("Async/Await", ["JavaScript", "ES6+"]),
  ("Fetch API", ["JavaScript", "Async/Await"]),
  ("React", ["JavaScript", "ES6+", "HTML", "CSS"]),
  ("State Management", ["React"]),
  ("Node.js", ["JavaScript"]),
  ("HTTP/HTTPS", []),
  ("REST APIs", ["HTTP/HTTPS", "JSON"]),
  ("Express.js", ["Node.js"]),
  ("RESTful Design", ["REST APIs", "Express.js"]),
  ("Error Handling", ["Express.js", "React"]),
  ("SQL", []),
  ("Database Design", ["SQL"]),
  ("PostgreSQL", ["SQL", "Database Design"]),
  ("MongoDB", ["Node.js"]),
  ("Authentication", ["Express.js", "HTTP/HTTPS"]),
  ("Authorization", ["Authentication"]),
  ("JWT", ["Authentication"]),
  ("Encryption", ["JavaScript"]),
  ("npm/yarn", ["JavaScript"]),
  ("Webpack", ["npm/yarn", "JavaScript"]),
  ("Environment Variables", ["Node.js"]),
  ("Deployment", ["Node.js", "Environment Variables"]),
  ("Unit Testing", ["JavaScript"]),
  ("Integration Testing", ["Unit Testing", "Express.js"]),
  ("Jest", ["JavaScript", "Unit Testing"]),
  ("Caching", ["Node.js"]),
  ("Performance Optimization", ["JavaScript", "React"]),
  ("Rate Limiting", ["Express.js"]),
  ("TypeScript", ["JavaScript", "ES6+"]),
  ("Docker", ["Node.js", "Deployment"]),
  ("Web Accessibility", ["HTML", "CSS"]),
  ("Logging", ["Node.js"])]

/-- `PREREQUISITES[track]`: `none` models an absent property. -/
def PREREQUISITES (track : String) : Option Graph :=
  if track = "frontend" then some frontendPrereqs
  else if track = "backend" then some backendPrereqs
  else if track = "fullstack" then some fullstackPrereqs
  else none

/-- `trackPrereqs[skill] || []` on a graph object. -/
def lookupPrereqs (g : Graph) (skill : String) : List String :=
  match g.find? (fun kv => decide (kv.1 = skill)) with
  | some kv => kv.2
  | none => []

/-- `getPrerequisites(track, skillName)` from prerequisites.js. -/
def getPrerequisites (track skillName : String) : List String :=
  match PREREQUISITES track with
  | none => []
  | some trackPrereqs => lookupPrereqs trackPrereqs skillName

/-- `new Set(array)` keeps the first occurrence of each element, in order
(auxiliary recursion carrying the elements already seen). -/
def dedupFirstAux (seen : List String) : List String → List String
  | [] => []
  | x :: xs =>
    if x ∈ seen then dedupFirstAux seen xs
    else x :: dedupFirstAux (x :: seen) xs

/-- Insertion-ordered deduplication, as performed by `new Set(skillNames)`. -/
def dedupFirst (l : List String) : List String :=
  dedupFirstAux [] l

/-- `String.prototype.toLowerCase()`: lower each character by code
point (the ASCII range; every name in the catalogs and graphs is
ASCII). Defined structurally on the character list so that it computes
by kernel reduction. -/
def String.toLowerCase (s : String) : String :=
  String.mk (s.data.map fun c =>
    if 65 ≤ c.toNat ∧ c.toNat ≤ 90 then Char.ofNat (c.toNat + 32) else c)

/-- Eligibility test of one pass of `getLearningOrder`: every direct
prerequisite is already processed or absent from the original input. -/
def eligible (g : Graph) (skillNames processed : List String) (skill : String) : Bool :=
  (lookupPrereqs g skill).all fun prereq =>
    decide (prereq ∈ processed) || !decide (prereq ∈ skillNames)

/-- One pass of the while-loop of `getLearningOrder`: walk `remaining` in
order, moving every skill whose prerequisites are met (with respect to the
growing `ordered` list) from `remaining` to the end of `ordered`.
Returns the new `ordered` and the new `remaining`. -/
def onePass (g : Graph) (skillNames : List String) :
    List String → List String → List String × List String
  | ordered, [] => (ordered, [])
  | ordered, skill :: rest =>
    if eligible g skillNames ordered skill then
      onePass g skillNames (ordered ++ [skill]) rest
    else
      ((onePass g skillNames ordered rest).1, skill :: (onePass g skillNames ordered rest).2)

/-- The while-loop of `getLearningOrder`, with the iteration budget as
fuel. When a pass moves nothing while skills remain, the remainder is
flushed in sorted order and the loop stops; if the fuel runs out the
current `ordered` is returned (mirroring the `iterations < maxIterations`
loop condition). -/
def loGo (g : Graph) (skillNames : List String) :
    Nat → List String → List String → List String
  | _, ordered, [] => ordered
  | 0, ordered, _ :: _ => ordered
  | fuel + 1, ordered, r0 :: rest =>
    if (onePass g skillNames ordered (r0 :: rest)).2.length = (r0 :: rest).length then
      (onePass g skillNames ordered (r0 :: rest)).1
        ++ ((onePass g skillNames ordered (r0 :: rest)).2.insertionSort (· ≤ ·))
    else
      loGo g skillNames fuel (onePass g skillNames ordered (r0 :: rest)).1
        (onePass g skillNames ordered (r0 :: rest)).2

/-- Body of `getLearningOrder` once the track graph has been found:
`remaining = new Set(skillNames)`, `maxIterations = skillNames.length * 2`. -/
def learnOrderCore (g : Graph) (skillNames : List String) : List String :=
  loGo g skillNames (2 * skillNames.length) [] (dedupFirst skillNames)

/-- `getLearningOrder(track, skillNames)` from prerequisites.js. -/
def getLearningOrder (track : String) (skillNames : List String) : List String :=
  match PREREQUISITES track with
  | none => skillNames
  | some trackPrereqs => learnOrderCore trackPrereqs skillNames

/-- A suggestion object produced by `getSuggestedNext`; `missingPrereqs`
is only present on the single-missing-prerequisite branch. -/
structure Suggestion where
  skill : String
  reason : String
  prereqs : List String
  missingPrereqs : Option (List String)
deriving Repr, DecidableEq

/-- Loop body of `getSuggestedNext` for one gap skill: `some` when the
skill is pushed onto `suggestions`, `none` when it is skipped. -/
def suggestionFor (track : String) (learnedSet : List String) (gapSkill : String) :
    Option Suggestion :=
  let prereqs := getPrerequisites track gapSkill
  if prereqs.all (fun prereq => decide (prereq.toLowerCase ∈ learnedSet)) then
    some { skill := gapSkill, reason := "Prerequisites met",
           prereqs := prereqs, missingPrereqs := none }
  else
    match prereqs.filter (fun prereq => !decide (prereq.toLowerCase ∈ learnedSet)) with
    | [m] => some { skill := gapSkill, reason := "Learn " ++ m ++ " first",
                    prereqs := prereqs, missingPrereqs := some [m] }
    | _ => none

/-- `getSuggestedNext(track, currentSkills, gapSkills, count = 3)` from
prerequisites.js: collect suggestions in gap order, then `slice(0, count)`. -/
def getSuggestedNext (track : String) (currentSkills gapSkills : List String)
    (count : Nat := 3) : List Suggestion :=
  let learnedSet := currentSkills.map String.toLowerCase
  ((gapSkills.filterMap (suggestionFor track learnedSet)).take count)

/-! ## Cache service (src/services/cacheService.js) -/

/-- A cache entry: `{ value, expiry, createdAt }`. -/
structure CacheEntry (V : Type) where
  value : V
  expiry : Nat
  createdAt : Nat
deriving Repr, DecidableEq

/-- The cache service state: `this.cache` is a JavaScript `Map`, modelled
as an association list in insertion order. -/
structure CacheService (V : Type) where
  cache : List (String × CacheEntry V)
  maxSize : Nat
  defaultTTL : Nat
deriving Repr, DecidableEq

/-- `Map.prototype.get` (raw, no TTL logic). -/
def mapFind? {V : Type} (m : List (String × CacheEntry V)) (k : String) :
    Option (CacheEntry V) :=
  (m.find? (fun kv => decide (kv.1 = k))).map Prod.snd

/-- `Map.prototype.delete`. -/
def mapDelete {V : Type} (m : List (String × CacheEntry V)) (k : String) :
    List (String × CacheEntry V) :=
  m.filter (fun kv => !decide (kv.1 = k))

/-- `Map.prototype.set`: updating an existing key keeps its position in
the iteration order; a fresh key is appended at the end. -/
def mapSet {V : Type} (m : List (String × CacheEntry V)) (k : String) (e : CacheEntry V) :
    List (String × CacheEntry V) :=
  if (m.find? (fun kv => decide (kv.1 = k))).isSome then
    m.map (fun kv => if kv.1 = k then (k, e) else kv)
  else
    m ++ [(k, e)]

/-- `generateKey(prefix, params)`: sort the parameter names, join
`name:value` pairs with `|`, and prepend the namespace. Parameter records
are modelled as association lists with stringified values. -/
def generateKey (prefixStr : String) (params : List (String × String)) : String :=
  prefixStr ++ ":" ++
    String.intercalate "|"
      (((params.map Prod.fst).insertionSort (· ≤ ·)).map
        (fun k => k ++ ":" ++ ((params.find? (fun kv => decide (kv.1 = k))).map Prod.snd).getD ""))

/-- `set(key, value, ttlMs = null)`: `ttlMs || this.defaultTTL` (so both
`null` and `0` fall back to the default), evict the first key of the map
when at capacity and the key is absent, then `Map.set`. -/
def CacheService.set {V : Type} (c : CacheService V) (now : Nat) (key : String)
    (value : V) (ttlMs : Option Nat) : CacheService V :=
  let ttl := match ttlMs with
    | none => c.defaultTTL
    | some t => if t = 0 then c.defaultTTL else t
  let expiry := now + ttl
  let cache1 :=
    if decide (c.maxSize ≤ c.cache.length) && (mapFind? c.cache key).isNone then
      match c.cache with
      | [] => c.cache
      | firstKv :: _ => mapDelete c.cache firstKv.1
    else c.cache
  { c with cache := mapSet cache1 key { value := value, expiry := expiry, createdAt := now } }

/-- `get(key)`: miss on absence; delete-and-miss when `now` is strictly
past the expiry; otherwise delete and re-insert the entry at the end of
the map (promotion to most-recently-used) and return the value. Returns
the result together with the updated state. -/
def CacheService.get {V : Type} (c : CacheService V) (now : Nat) (key : String) :
    Option V × CacheService V :=
  match mapFind? c.cache key with
  | none => (none, c)
  | some entry =>
    if entry.expiry < now then
      (none, { c with cache := mapDelete c.cache key })
    else
      (some entry.value, { c with cache := mapSet (mapDelete c.cache key) key entry })

/-- A fresh cache service (`this.cache = new Map()`). -/
def emptyCache (V : Type) (maxSize defaultTTL : Nat) : CacheService V :=
  { cache := [], maxSize := maxSize, defaultTTL := defaultTTL }

/-- One observable cache operation, with its `Date.now()` timestamp. -/
inductive CacheOp (V : Type) where
  | set (now : Nat) (key : String) (value : V) (ttlMs : Option Nat)
  | get (now : Nat) (key : String)

/-- Apply one operation to the cache state. -/
def applyOp {V : Type} (c : CacheService V) : CacheOp V → CacheService V
  | .set now key value ttlMs => c.set now key value ttlMs
  | .get now key => (c.get now key).2

/-- Run a sequence of cache operations. -/
def runOps {V : Type} (c : CacheService V) (ops : List (CacheOp V)) : CacheService V :=
  ops.foldl applyOp c

/-! ## Roadmap catalog (src/config/roadmaps.js) -/

/-- A catalog entry `{ name, weight, category, section? }`; `section` is a
Lean keyword, hence the field name `sectionTag`. -/
structure Skill where
  name : String
  weight : Nat
  category : String
  sectionTag : Option String := none
deriving Repr, DecidableEq

/-- A track roadmap `{ name, description, coreSkills }`. -/
structure Roadmap where
  name : String
  description : String
  coreSkills : List Skill
deriving Repr, DecidableEq

/-- The `frontend` roadmap of `ROADMAPS`. -/
def frontendRoadmap : Roadmap :=
  { name := "Frontend Development",
    description := "Client-side web development skills",
    coreSkills := [
      { name := "HTML", weight := 10, category := "fundamentals" },
      { name := "CSS", weight := 10, category := "fundamentals" },
      { name := "JavaScript", weight := 10, category := "fundamentals" },
      { name := "Responsive Design", weight := 9, category := "fundamentals" },
      { name := "Browser DevTools", weight := 9, category := "fundamentals" },
      { name := "ES6+", weight := 8, category := "javascript" },
      { name := "Async/Await", weight := 8, category := "javascript" },
      { name := "Promises", weight := 8, category := "javascript" },
      { name := "DOM Manipulation", weight := 8, category := "javascript" },
      { name := "Event Handling", weight := 7, category := "javascript" },
      { name := "React", weight := 9, category := "frameworks" },
      { name := "Component Architecture", weight := 8, category := "frameworks" },
      { name := "State Management", weight := 8, category := "frameworks" },
      { name := "React Hooks", weight := 8, category := "frameworks" },
      { name := "CSS Flexbox", weight := 8, category := "styling" },
      { name := "CSS Grid", weight := 8, category := "styling" },
      { name := "Sass/SCSS", weight := 6, category := "styling" },
      { name := "CSS-in-JS", weight := 6, category := "styling" },
      { name := "Tailwind CSS", weight := 6, category := "styling" },
      { name := "npm/yarn", weight := 8, category := "tooling" },
      { name := "Webpack", weight := 7, category := "tooling" },
      { name := "Vite", weight := 7, category := "tooling" },
      { name := "Babel", weight := 6, category := "tooling" },
      { name := "Git", weight := 9, category := "fundamentals" },
      { name := "GitHub", weight := 8, category := "fundamentals" },
      { name := "Fetch API", weight := 8, category := "apis" },
      { name := "Local Storage", weight := 7, category := "apis" },
      { name := "Web Storage", weight := 6, category := "apis" },
      { name := "Performance Optimization", weight := 7, category := "performance" },
      { name := "Lazy Loading", weight := 6, category := "performance" },
      { name := "Code Splitting", weight := 6, category := "performance" },
      { name := "Jest", weight := 7, category := "testing" },
      { name := "React Testing Library", weight := 6, category := "testing" },
      { name := "Unit Testing", weight := 7, category := "testing" },
      { name := "Web Accessibility", weight := 7, category := "accessibility" },
      { name := "ARIA", weight := 6, category := "accessibility" },
      { name := "TypeScript", weight := 7, category := "languages" },
      { name := "SEO Basics", weight := 6, category := "optimization" },
      { name := "Browser Compatibility", weight := 6, category := "fundamentals" },
      { name := "Progressive Web Apps", weight := 5, category := "advanced" },
      { name := "Web Components", weight := 5, category := "advanced" }] }

/-- The `backend` roadmap of `ROADMAPS`. -/
def backendRoadmap : Roadmap :=
  { name := "Backend Development",
    description := "Server-side development skills",
    coreSkills := [
      { name := "JavaScript", weight := 10, category := "fundamentals" },
      { name := "Node.js", weight := 10, category := "fundamentals" },
      { name := "HTTP/HTTPS", weight := 9, category := "fundamentals" },
      { name := "REST APIs", weight := 9, category := "fundamentals" },
      { name := "JSON", weight := 9, category := "fundamentals" },
      { name := "Express.js", weight := 9, category := "frameworks" },
      { name := "Middleware", weight := 8, category := "frameworks" },
      { name := "Routing", weight := 8, category := "frameworks" },
      { name := "SQL", weight := 9, category := "databases" },
      { name := "PostgreSQL", weight := 8, category := "databases" },
      { name := "MySQL", weight := 8, category := "databases" },
      { name := "MongoDB", weight := 8, category := "databases" },
      { name := "Database Design", weight := 8, category := "databases" },
      { name := "ORMs", weight := 7, category := "databases" },
      { name := "Authentication", weight := 9, category := "security" },
      { name := "Authorization", weight := 9, category := "security" },
      { name := "JWT", weight := 8, category := "security" },
      { name := "OAuth", weight := 7, category := "security" },
      { name := "Encryption", weight := 8, category := "security" },
      { name := "HTTPS/TLS", weight := 8, category := "security" },
      { name := "RESTful Design", weight := 8, category := "apis" },
      { name := "API Versioning", weight := 7, category := "apis" },
      { name := "GraphQL", weight := 6, category := "apis" },
      { name := "Error Handling", weight := 8, category := "apis" },
      { name := "Git", weight := 9, category := "fundamentals" },
      { name := "GitHub", weight := 8, category := "fundamentals" },
      { name := "Async/Await", weight := 8, category := "programming" },
      { name := "Promises", weight := 8, category := "programming" },
      { name := "Event Loop", weight := 7, category := "programming" },
      { name := "Unit Testing", weight := 8, category := "testing" },
      { name := "Integration Testing", weight := 7, category := "testing" },
      { name := "Jest", weight := 7, category := "testing" },
      { name := "API Testing", weight := 7, category := "testing" },
      { name := "Environment Variables", weight := 8, category := "devops" },
      { name := "Logging", weight := 7, category := "devops" },
      { name := "Deployment", weight := 7, category := "devops" },
      { name := "CI/CD Basics", weight := 6, category := "devops" },
      { name := "Caching", weight := 7, category := "performance" },
      { name := "Rate Limiting", weight := 7, category := "performance" },
      { name := "Load Balancing", weight := 6, category := "performance" },
      { name := "Docker", weight := 7, category := "devops" },
      { name := "Redis", weight := 6, category := "databases" },
      { name := "Message Queues", weight := 6, category := "architecture" },
      { name := "Microservices", weight := 5, category := "architecture" },
      { name := "WebSockets", weight := 6, category := "realtime" },
      { name := "TypeScript", weight := 7, category := "languages" }] }

/-- The `fullstack` roadmap of `ROADMAPS`. -/
def fullstackRoadmap : Roadmap :=
  { name := "Full Stack Development",
    description := "Complete web development stack",
    coreSkills := [
      { name := "HTML", weight := 10, category := "frontend-fundamentals", sectionTag := some "frontend" },
      { name := "CSS", weight := 10, category := "frontend-fundamentals", sectionTag := some "frontend" },
      { name := "JavaScript", weight := 10, category := "fundamentals", sectionTag := some "both" },
      { name := "Git", weight := 10, category := "fundamentals", sectionTag := some "both" },
      { name := "React", weight := 9, category := "frontend-frameworks", sectionTag := some "frontend" },
      { name := "Responsive Design", weight := 9, category := "frontend-fundamentals", sectionTag := some "frontend" },
      { name := "CSS Flexbox", weight := 8, category := "frontend-styling", sectionTag := some "frontend" },
      { name := "CSS Grid", weight := 8, category := "frontend-styling", sectionTag := some "frontend" },
      { name := "ES6+", weight := 8, category := "javascript", sectionTag := some "both" },
      { name := "Async/Await", weight := 8, category := "javascript", sectionTag := some "both" },
      { name := "Fetch API", weight := 8, category := "frontend-apis", sectionTag := some "frontend" },
      { name := "Node.js", weight := 10, category := "backend-fundamentals", sectionTag := some "backend" },
      { name := "Express.js", weight := 9, category := "backend-frameworks", sectionTag := some "backend" },
      { name := "REST APIs", weight := 9, category := "backend-apis", sectionTag := some "backend" },
      { name := "HTTP/HTTPS", weight := 9, category := "backend-fundamentals", sectionTag := some "backend" },
      { name := "SQL", weight := 9, category := "backend-databases", sectionTag := some "backend" },
      { name := "Authentication", weight := 9, category := "backend-security", sectionTag := some "backend" },
      { name := "Database Design", weight := 8, category := "backend-databases", sectionTag := some "backend" },
      { name := "RESTful Design", weight := 9, category := "integration", sectionTag := some "both" },
      { name := "State Management", weight := 8, category := "frontend-frameworks", sectionTag := some "frontend" },
      { name := "Error Handling", weight := 8, category := "integration", sectionTag := some "both" },
      { name := "Environment Variables", weight := 8, category := "backend-devops", sectionTag := some "backend" },
      { name := "PostgreSQL", weight := 8, category := "backend-databases", sectionTag := some "backend" },
      { name := "MongoDB", weight := 7, category := "backend-databases", sectionTag := some "backend" },
      { name := "Authorization", weight := 8, category := "backend-security", sectionTag := some "backend" },
      { name := "JWT", weight := 8, category := "backend-security", sectionTag := some "backend" },
      { name := "Encryption", weight := 7, category := "backend-security", sectionTag := some "backend" },
      { name := "npm/yarn", weight := 8, category := "tooling", sectionTag := some "both" },
      { name := "Webpack", weight := 7, category := "frontend-tooling", sectionTag := some "frontend" },
      { name := "Deployment", weight := 8, category := "backend-devops", sectionTag := some "backend" },
      { name := "Unit Testing", weight := 8, category := "testing", sectionTag := some "both" },
      { name := "Integration Testing", weight := 7, category := "backend-testing", sectionTag := some "backend" },
      { name := "Jest", weight := 7, category := "testing", sectionTag := some "both" },
      { name := "Caching", weight := 7, category := "backend-performance", sectionTag := some "backend" },
      { name := "Performance Optimization", weight := 7, category := "frontend-performance", sectionTag := some "frontend" },
      { name := "Rate Limiting", weight := 7, category := "backend-performance", sectionTag := some "backend" },
      { name := "TypeScript", weight := 7, category := "languages", sectionTag := some "both" },
      { name := "Docker", weight := 7, category := "backend-devops", sectionTag := some "backend" },
      { name := "Web Accessibility", weight := 7, category := "frontend-accessibility", sectionTag := some "frontend" },
      { name := "Logging", weight := 7, category := "backend-devops", sectionTag := some "backend" },
      { name := "Browser DevTools", weight := 7, category := "frontend-fundamentals", sectionTag := some "frontend" }] }

/-- `ROADMAPS[track]`. -/
def ROADMAPS (track : String) : Option Roadmap :=
  if track = "frontend" then some frontendRoadmap
  else if track = "backend" then some backendRoadmap
  else if track = "fullstack" then some fullstackRoadmap
  else none

/-- `getCoreSkills(track)`: throws `Invalid track` for an unknown track,
modelled as `none`. -/
def getCoreSkills (track : String) : Option (List Skill) :=
  (ROADMAPS track).map Roadmap.coreSkills

/-- `getSkillWeight(track, skillName)`: case-insensitive catalog lookup,
`0` when the skill is not in the catalog; propagates the `getCoreSkills`
throw as `none`. -/
def getSkillWeight (track skillName : String) : Option Nat :=
  (getCoreSkills track).map fun coreSkills =>
    match coreSkills.find? (fun s => decide (s.name.toLowerCase = skillName.toLowerCase)) with
    | some s => s.weight
    | none => 0

/-! ## Validation service (src/services/validationService.js) -/

/-- A gap `{ skill, weight }` produced by `findGaps`. -/
structure Gap where
  skill : String
  weight : Nat
deriving Repr, DecidableEq

/-- `findGaps(track, userSkillNames, coreSkillNames)`: keep the core
skills whose lowercased name is not among the lowercased user skill
names; each kept skill carries `getSkillWeight(track, skill)`. The
`Option` propagates the throw of `getSkillWeight` on an unknown track. -/
def findGaps (track : String) (userSkillNames coreSkillNames : List String) :
    Option (List Gap) :=
  let userSkillSet := userSkillNames.map String.toLowerCase
  (coreSkillNames.filter (fun coreSkill => !decide (coreSkill.toLowerCase ∈ userSkillSet))).mapM
    fun skill => (getSkillWeight track skill).map fun w => { skill := skill, weight := w }

/-- `categorizeDemand(combinedScore)` with the fixed
`DEMAND_THRESHOLDS = { HIGH: 1000, MEDIUM: 300 }`. Scores are rationals
because `combinedScore = github + 0.5 * stackoverflow`. -/
def categorizeDemand (combinedScore : ℚ) : String :=
  if 1000 ≤ combinedScore then "high"
  else if 300 ≤ combinedScore then "medium"
  else "low"

/-- `Number.prototype.toFixed(1)` on a nonnegative value, kept as a
rational: round to the nearest tenth. -/
def toFixed1 (q : ℚ) : ℚ :=
  (round (q * 10) : ℤ) / 10

/-- The slice of `validateSkills(track, userSkills)` that produces
`coveragePercent`: fetch the core skills (throwing on an unknown track),
compute the gaps, and return
`((1 - gapCount / coreSkillCount) * 100).toFixed(1)`. -/
def validateSkillsCoverage (track : String) (userSkillNames : List String) : Option ℚ :=
  match getCoreSkills track with
  | none => none
  | some coreSkills =>
    let coreSkillNames := coreSkills.map Skill.name
    (findGaps track userSkillNames coreSkillNames).map fun gaps =>
      toFixed1 ((1 - (gaps.length : ℚ) / (coreSkillNames.length : ℚ)) * 100)

/-! ## Specification devices

`GoodAcc` states the ordering guarantee of `getLearningOrder`, and the
per-track rank functions witness that the three static prerequisite
graphs are acyclic (every edge strictly decreases the rank). -/

/-- `GoodAcc g skillNames pre l`: walking `l` with the already-placed
prefix `pre`, every skill's direct prerequisites that occur in the
original input appear strictly earlier in the output. -/
def GoodAcc (g : Graph) (skillNames : List String) : List String → List String → Prop
  | _, [] => True
  | pre, s :: rest =>
    (∀ p ∈ lookupPrereqs g s, p ∈ skillNames → p ∈ pre) ∧
      GoodAcc g skillNames (pre ++ [s]) rest

/-- A graph is measured by `m` when every direct prerequisite strictly
decreases `m`; this is the acyclicity witness used for the learning-order
correctness proof. -/
def Measured (g : Graph) (m : String → Nat) : Prop :=
  ∀ s : String, ∀ p ∈ lookupPrereqs g s, m p < m s

/-- Depth rank of the `frontend` prerequisite graph. -/
def frontendRank : String → Nat
  | "HTML" => 0
  | "Git" => 0
  | "CSS" => 1
  | "JavaScript" => 1
  | "GitHub" => 1
  | "SEO Basics" => 1
  | "CSS Flexbox" => 2
  | "CSS Grid" => 2
  | "Sass/SCSS" => 2
  | "CSS-in-JS" => 2
  | "Tailwind CSS" => 2
  | "ES6+" => 2
  | "DOM Manipulation" => 2
  | "npm/yarn" => 2
  | "Local Storage" => 2
  | "Web Storage" => 2
  | "Browser DevTools" => 2
  | "Browser Compatibility" => 2
  | "Unit Testing" => 2
  | "Web Accessibility" => 2
  | "Web Components" => 2
  | "Responsive Design" => 3
  | "Event Handling" => 3
  | "Promises" => 3
  | "React" => 3
  | "Babel" => 3
  | "Webpack" => 3
  | "Vite" => 3
  | "Jest" => 3
  | "ARIA" => 3
  | "TypeScript" => 3
  | "Async/Await" => 4
  | "Component Architecture" => 4
  | "Performance Optimization" => 4
  | "Lazy Loading" => 4
  | "Code Splitting" => 4
  | "React Testing Library" => 4
  | "Fetch API" => 5
  | "React Hooks" => 5
  | "State Management" => 6
  | "Progressive Web Apps" => 6
  | _ => 0

/-- Depth rank of the `backend` prerequisite graph. -/
def backendRank : String → Nat
  | "JavaScript" => 0
  | "HTTP/HTTPS" => 0
  | "SQL" => 0
  | "Git" => 0
  | "Node.js" => 1
  | "JSON" => 1
  | "Encryption" => 1
  | "Promises" => 1
  | "Unit Testing" => 1
  | "HTTPS/TLS" => 1
  | "GitHub" => 1
  | "Database Design" => 1
  | "TypeScript" => 1
  | "Express.js" => 2
  | "REST APIs" => 2
  | "MongoDB" => 2
  | "ORMs" => 2
  | "Redis" => 2
  | "Async/Await" => 2
  | "Event Loop" => 2
  | "Jest" => 2
  | "Environment Variables" => 2
  | "Logging" => 2
  | "Caching" => 2
  | "PostgreSQL" => 2
  | "MySQL" => 2
  | "WebSockets" => 2
  | "Middleware" => 3
  | "Routing" => 3
  | "RESTful Design" => 3
  | "GraphQL" => 3
  | "Error Handling" => 3
  | "API Testing" => 3
  | "Authentication" => 3
  | "Integration Testing" => 3
  | "Deployment" => 3
  | "Rate Limiting" => 3
  | "Message Queues" => 3
  | "API Versioning" => 4
  | "Authorization" => 4
  | "JWT" => 4
  | "OAuth" => 4
  | "CI/CD Basics" => 4
  | "Docker" => 4
  | "Load Balancing" => 4
  | "Microservices" => 5
  | _ => 0

/-- Depth rank of the `fullstack` prerequisite graph. -/
def fullstackRank : String → Nat
  | "HTML" => 0
  | "Git" => 0
  | "SQL" => 0
  | "HTTP/HTTPS" => 0
  | "CSS" => 1
  | "JavaScript" => 1
  | "GitHub" => 1
  | "Database Design" => 1
  | "REST APIs" => 1
  | "CSS Flexbox" => 2
  | "CSS Grid" => 2
  | "ES6+" => 2
  | "Node.js" => 2
  | "Encryption" => 2
  | "npm/yarn" => 2
  | "Unit Testing" => 2
  | "Web Accessibility" => 2
  | "Browser DevTools" => 2
  | "PostgreSQL" => 2
  | "Responsive Design" => 3
  | "Async/Await" => 3
  | "React" => 3
  | "Express.js" => 3
  | "MongoDB" => 3
  | "Webpack" => 3
  | "Environment Variables" => 3
  | "Jest" => 3
  | "Caching" => 3
  | "TypeScript" => 3
  | "Logging" => 3
  | "Integration Testing" => 4
  | "Fetch API" => 4
  | "State Management" => 4
  | "RESTful Design" => 4
  | "Error Handling" => 4
  | "Authentication" => 4
  | "Deployment" => 4
  | "Performance Optimization" => 4
  | "Rate Limiting" => 4
  | "Authorization" => 5
  | "JWT" => 5
  | "Docker" => 5
  | _ => 0

/-! ## Lemmas about the Map model -/

theorem mapFind?_eq_none_iff {V : Type} {m : List (String × CacheEntry V)} {k : String} :
    mapFind? m k = none ↔ ∀ kv ∈ m, kv.1 ≠ k := by
  simp [mapFind?, List.find?_eq_none]

theorem mapDelete_find?_self {V : Type} (m : List (String × CacheEntry V)) (k : String) :
    mapFind? (mapDelete m k) k = none := by
  rw [mapFind?_eq_none_iff]
  intro kv hkv
  simp only [mapDelete, List.mem_filter, Bool.not_eq_eq_eq_not, Bool.not_true,
    decide_eq_false_iff_not] at hkv
  exact hkv.2

theorem mapSet_absent {V : Type} {m : List (String × CacheEntry V)} {k : String}
    (e : CacheEntry V) (h : mapFind? m k = none) : mapSet m k e = m ++ [(k, e)] := by
  have hf : m.find? (fun kv => decide (kv.1 = k)) = none := by
    simpa [mapFind?] using h
  simp [mapSet, hf]

theorem mapSet_cons {V : Type} {kv : String × CacheEntry V}
    {m : List (String × CacheEntry V)} {k : String} (h : kv.1 ≠ k) (e : CacheEntry V) :
    mapSet (kv :: m) k e = kv :: mapSet m k e := by
  unfold mapSet
  rw [List.find?_cons_of_neg _ (by simp [h])]
  by_cases hf : (m.find? (fun kv => decide (kv.1 = k))).isSome
  · simp [hf, h]
  · simp [hf]

theorem mapFind?_cons_of_ne {V : Type} {kv : String × CacheEntry V}
    {m : List (String × CacheEntry V)} {k : String} (h : kv.1 ≠ k) :
    mapFind? (kv :: m) k = mapFind? m k := by
  unfold mapFind?
  rw [List.find?_cons_of_neg _ (by simp [h])]

theorem mapFind?_mapSet_self {V : Type} (m : List (String × CacheEntry V)) (k : String)
    (e : CacheEntry V) : mapFind? (mapSet m k e) k = some e := by
  induction m with
  | nil => simp [mapSet, mapFind?]
  | cons kv rest ih =>
    by_cases hk : kv.1 = k
    · have hfind : (kv :: rest).find? (fun kv => decide (kv.1 = k)) = some kv :=
        List.find?_cons_of_pos _ (by simp [hk])
      simp [mapSet, hfind, mapFind?, hk]
    · rw [mapSet_cons hk, mapFind?_cons_of_ne hk]
      exact ih

theorem mapSet_present_length {V : Type} {m : List (String × CacheEntry V)} {k : String}
    {e0 : CacheEntry V} (e : CacheEntry V) (h : mapFind? m k = some e0) :
    (mapSet m k e).length = m.length := by
  have hf : (m.find? (fun kv => decide (kv.1 = k))).isSome := by
    cases hff : m.find? (fun kv => decide (kv.1 = k)) <;> simp [mapFind?, hff] at h ⊢
  simp [mapSet, hf]

theorem mapSet_present_keys {V : Type} {m : List (String × CacheEntry V)} {k : String}
    {e0 : CacheEntry V} (e : CacheEntry V) (h : mapFind? m k = some e0) :
    (mapSet m k e).map Prod.fst = m.map Prod.fst := by
  have hf : (m.find? (fun kv => decide (kv.1 = k))).isSome := by
    cases hff : m.find? (fun kv => decide (kv.1 = k)) <;> simp [mapFind?, hff] at h ⊢
  simp only [mapSet, hf, if_pos, List.map_map]
  apply List.map_congr_left
  intro kv _
  by_cases hk : kv.1 = k <;> simp [hk]

theorem mapDelete_length_le {V : Type} (m : List (String × CacheEntry V)) (k : String) :
    (mapDelete m k).length ≤ m.length :=
  List.length_filter_le _ _

theorem mapDelete_length_lt {V : Type} {m : List (String × CacheEntry V)} {k : String}
    {e : CacheEntry V} (h : mapFind? m k = some e) :
    (mapDelete m k).length < m.length := by
  induction m with
  | nil => simp [mapFind?] at h
  | cons kv rest ih =>
    by_cases hk : kv.1 = k
    · have : (mapDelete (kv :: rest) k) = rest.filter (fun kv => !decide (kv.1 = k)) := by
        simp [mapDelete, hk]
      rw [this]
      exact Nat.lt_succ_of_le (List.length_filter_le _ _)
    · have h' : mapFind? rest k = some e := by
        rwa [mapFind?_cons_of_ne hk] at h
      have : (mapDelete (kv :: rest) k) = kv :: mapDelete rest k := by
        simp [mapDelete, hk]
      rw [this]
      exact Nat.succ_lt_succ (ih h')

/-! ## C7: demand categorization -/

/-- C7: for every combinedScore, `categorizeDemand` returns `high` iff
the score is at least 1000, `medium` iff it is at least 300 and below
1000, and `low` iff it is below 300; the three cases partition the
rationals with no gaps or overlaps. -/
theorem categorizeDemand_thresholds (combinedScore : ℚ) :
    (categorizeDemand combinedScore = "high" ↔ 1000 ≤ combinedScore) ∧
    (categorizeDemand combinedScore = "medium" ↔
      300 ≤ combinedScore ∧ combinedScore < 1000) ∧
    (categorizeDemand combinedScore = "low" ↔ combinedScore < 300) := by
  unfold categorizeDemand
  by_cases h1 : (1000 : ℚ) ≤ combinedScore
  · rw [if_pos h1]
    refine ⟨⟨fun _ => h1, fun _ => rfl⟩, ?_, ?_⟩
    · exact ⟨fun h => absurd h (by decide), fun h => absurd h1 (not_le.mpr h.2)⟩
    · exact ⟨fun h => absurd h (by decide),
        fun hlt => absurd h1 (not_le.mpr (lt_of_lt_of_le hlt (by norm_num)))⟩
  · rw [if_neg h1]
    by_cases h2 : (300 : ℚ) ≤ combinedScore
    · rw [if_pos h2]
      refine ⟨?_, ⟨fun _ => ⟨h2, not_le.mp h1⟩, fun _ => rfl⟩, ?_⟩
      · exact ⟨fun h => absurd h (by decide), fun h => absurd h h1⟩
      · exact ⟨fun h => absurd h (by decide), fun hlt => absurd h2 (not_le.mpr hlt)⟩
    · rw [if_neg h2]
      refine ⟨?_, ?_, ⟨fun _ => not_le.mp h2, fun _ => rfl⟩⟩
      · exact ⟨fun h => absurd h (by decide),
          fun h => absurd (le_trans (by norm_num) h) h2⟩
      · exact ⟨fun h => absurd h (by decide), fun h => absurd h.1 h2⟩

/-- C7 instances: the three threshold regions at concrete scores. -/
theorem categorizeDemand_thresholds_witness :
    categorizeDemand 1000 = "high" ∧ categorizeDemand (999 + 1/2) = "medium" ∧
    categorizeDemand 300 = "medium" ∧ categorizeDemand (299 + 1/2) = "low" :=
  ⟨(categorizeDemand_thresholds 1000).1.mpr (by norm_num),
   (categorizeDemand_thresholds (999 + 1/2)).2.1.mpr (by norm_num),
   (categorizeDemand_thresholds 300).2.1.mpr (by norm_num),
   (categorizeDemand_thresholds (299 + 1/2)).2.2.mpr (by norm_num)⟩

/-! ## C4: cache get semantics -/

/-- C4: `get` returns the stored value when the key is present and `now`
is not past the expiry, and a miss (`none`, never an error) when the key
is absent or `now` is strictly past the expiry; an expired entry is
deleted by that read, and a successful read re-inserts the entry at the
end of the map (most-recently-used). Concretely, an entry set with a
50ms TTL misses 100ms later and hits at any time less than 50ms later. -/
theorem cacheGet_spec {V : Type} (c : CacheService V) (now : Nat) (key : String) :
    (mapFind? c.cache key = none → c.get now key = (none, c)) ∧
    (∀ e : CacheEntry V, mapFind? c.cache key = some e → e.expiry < now →
      c.get now key = (none, { c with cache := mapDelete c.cache key })) ∧
    (∀ e : CacheEntry V, mapFind? c.cache key = some e → now ≤ e.expiry →
      c.get now key =
        (some e.value, { c with cache := mapDelete c.cache key ++ [(key, e)] })) ∧
    (∀ (value : V) (t d : Nat), 100 ≤ d →
      ((c.set t key value (some 50)).get (t + d) key).1 = none) ∧
    (∀ (value : V) (t d : Nat), d < 50 →
      ((c.set t key value (some 50)).get (t + d) key).1 = some value) := by
  have hset : ∀ (value : V) (t : Nat),
      mapFind? (c.set t key value (some 50)).cache key
        = some { value := value, expiry := t + 50, createdAt := t } := by
    intro value t
    unfold CacheService.set
    norm_num
    exact mapFind?_mapSet_self _ _ _
  refine ⟨?_, ?_, ?_, ?_, ?_⟩
  · intro h
    unfold CacheService.get
    rw [h]
  · intro e he hexp
    unfold CacheService.get
    rw [he]
    simp only [if_pos hexp]
  · intro e he hexp
    unfold CacheService.get
    rw [he]
    simp only [if_neg (not_lt.mpr hexp)]
    rw [mapSet_absent e (mapDelete_find?_self _ _)]
  · intro value t d hd
    unfold CacheService.get
    rw [hset value t]
    simp only [if_pos (by omega : t + 50 < t + d)]
  · intro value t d hd
    unfold CacheService.get
    rw [hset value t]
    simp only [if_neg (by omega : ¬ t + 50 < t + d)]

/-- C4 instance: the 50ms-TTL scenario on a concrete cache. -/
theorem cacheGet_spec_witness :
    (((emptyCache Nat 5 1000).set 3 "k" 7 (some 50)).get (3 + 100) "k").1 = none ∧
    (((emptyCache Nat 5 1000).set 3 "k" 7 (some 50)).get (3 + 49) "k").1 = some 7 :=
  ⟨(cacheGet_spec (emptyCache Nat 5 1000) 0 "k").2.2.2.1 7 3 100 (by decide),
   (cacheGet_spec (emptyCache Nat 5 1000) 0 "k").2.2.2.2 7 3 49 (by decide)⟩

/-! ## C10: set on an existing key -/

/-- C10: `set` on a key already present updates the entry in place: no
eviction, the map's key sequence (hence the entry's position in the
eviction order) is unchanged, and the entry's value and expiry are
replaced. Only `get` promotes an entry, so in the concrete scenario a
key refreshed via `set` at capacity is still the next one evicted. -/
theorem cacheSet_existing_key :
    (∀ (V : Type) (c : CacheService V) (now : Nat) (key : String) (value : V)
        (ttlMs : Option Nat) (e0 : CacheEntry V), mapFind? c.cache key = some e0 →
      (c.set now key value ttlMs).cache.map Prod.fst = c.cache.map Prod.fst ∧
      (c.set now key value ttlMs).cache.length = c.cache.length ∧
      mapFind? (c.set now key value ttlMs).cache key =
        some { value := value,
               expiry := now + (match ttlMs with
                 | none => c.defaultTTL
                 | some t => if t = 0 then c.defaultTTL else t),
               createdAt := now }) ∧
    (runOps (emptyCache Nat 2 100)
        [.set 0 "a" 1 none, .set 0 "b" 2 none, .set 0 "a" 9 none,
         .set 0 "c" 3 none]).cache.map Prod.fst = ["b", "c"] := by
  constructor
  · intro V c now key value ttlMs e0 h
    have hnone : (mapFind? c.cache key).isNone = false := by
      rw [h]; rfl
    unfold CacheService.set
    simp only [hnone, Bool.and_false, Bool.false_eq_true, if_false]
    exact ⟨mapSet_present_keys _ h, mapSet_present_length _ h, mapFind?_mapSet_self _ _ _⟩
  · rfl

/-- C10 instance: refreshing key `a` via `set` does not change its
position, so the next insertion at capacity still evicts `a`. -/
theorem cacheSet_existing_key_witness :
    ((emptyCache Nat 2 100).set 0 "a" 1 none |>.set 0 "b" 2 none |>.set 5 "a" 9
      none).cache.map Prod.fst = ["a", "b"] ∧
    (runOps (emptyCache Nat 2 100)
        [.set 0 "a" 1 none, .set 0 "b" 2 none, .set 0 "a" 9 none,
         .set 0 "c" 3 none]).cache.map Prod.fst = ["b", "c"] :=
  ⟨((cacheSet_existing_key.1 Nat
      ((emptyCache Nat 2 100).set 0 "a" 1 none |>.set 0 "b" 2 none) 5 "a" 9 none
      { value := 1, expiry := 100, createdAt := 0 } (by decide)).1).trans (by decide),
   cacheSet_existing_key.2⟩

/-! ## C5: cache key construction -/

theorem find?_param_perm {p1 p2 : List (String × String)} (hperm : p1.Perm p2) :
    (p1.map Prod.fst).Nodup →
    ∀ k, p1.find? (fun kv => decide (kv.1 = k)) = p2.find? (fun kv => decide (kv.1 = k)) := by
  induction hperm with
  | nil => intro _ _; rfl
  | cons x _ ih =>
    intro hnd k
    by_cases hx : x.1 = k
    · rw [List.find?_cons_of_pos _ (by simp [hx]), List.find?_cons_of_pos _ (by simp [hx])]
    · rw [List.find?_cons_of_neg _ (by simp [hx]), List.find?_cons_of_neg _ (by simp [hx])]
      exact ih (by simpa using (List.nodup_cons.mp (by simpa using hnd)).2) k
  | swap x y l =>
    intro hnd k
    have hxy : y.1 ≠ x.1 := by
      have h2 : ((y :: x :: l).map Prod.fst).Nodup := hnd
      simp [List.nodup_cons] at h2
      exact h2.1.1
    by_cases hy : y.1 = k <;> by_cases hx : x.1 = k
    · exact absurd (hy.trans hx.symm) hxy
    · rw [List.find?_cons_of_pos _ (by simp [hy]), List.find?_cons_of_neg _ (by simp [hx]),
        List.find?_cons_of_pos _ (by simp [hy])]
    · rw [List.find?_cons_of_neg _ (by simp [hy]), List.find?_cons_of_pos _ (by simp [hx]),
        List.find?_cons_of_pos _ (by simp [hx])]
    · rw [List.find?_cons_of_neg _ (by simp [hy]), List.find?_cons_of_neg _ (by simp [hx]),
        List.find?_cons_of_neg _ (by simp [hx]), List.find?_cons_of_neg _ (by simp [hy])]
  | trans h1 _ ih1 ih2 =>
    intro hnd k
    rw [ih1 hnd k, ih2 ((h1.map Prod.fst).nodup_iff.mp hnd) k]

/-- C5: the cache key is a deterministic, field-order-independent function
of the prefix and the parameter record: permuting a record with distinct
field names never changes the generated key, because the fields are
sorted by name and joined as `field:value` with fixed separators. -/
theorem generateKey_order_independent (prefixStr : String)
    (params1 params2 : List (String × String)) (hnd : (params1.map Prod.fst).Nodup)
    (hperm : params1.Perm params2) :
    generateKey prefixStr params1 = generateKey prefixStr params2 := by
  unfold generateKey
  have hkeys : (params1.map Prod.fst).insertionSort (· ≤ ·)
      = (params2.map Prod.fst).insertionSort (· ≤ ·) := by
    have hs1 : List.Sorted (· ≤ ·) ((params1.map Prod.fst).insertionSort (· ≤ ·)) :=
      List.sorted_insertionSort _ _
    have hs2 : List.Sorted (· ≤ ·) ((params2.map Prod.fst).insertionSort (· ≤ ·)) :=
      List.sorted_insertionSort _ _
    exact List.eq_of_perm_of_sorted
      ((List.perm_insertionSort _ _).trans
        ((hperm.map Prod.fst).trans (List.perm_insertionSort _ _).symm))
      hs1 hs2
  rw [hkeys]
  congr 1
  congr 1
  apply List.map_congr_left
  intro k _
  rw [find?_param_perm hperm hnd k]

/-- C5 instance: `{a:1, b:2}` and `{b:2, a:1}` generate the same key. -/
theorem generateKey_order_independent_witness :
    generateKey "p" [("a", "1"), ("b", "2")] = generateKey "p" [("b", "2"), ("a", "1")] :=
  generateKey_order_independent "p" [("a", "1"), ("b", "2")] [("b", "2"), ("a", "1")]
    (by decide) (by decide)

/-! ## C3: capacity invariant and LRU eviction -/

theorem mapFind?_filter_none {V : Type} {m : List (String × CacheEntry V)} {k : String}
    (p : String × CacheEntry V → Bool) (h : mapFind? m k = none) :
    mapFind? (m.filter p) k = none := by
  rw [mapFind?_eq_none_iff] at *
  intro kv hkv
  exact h kv (List.mem_of_mem_filter hkv)

theorem mapFind?_append_none {V : Type} {m1 m2 : List (String × CacheEntry V)} {k : String}
    (h1 : mapFind? m1 k = none) (h2 : mapFind? m2 k = none) :
    mapFind? (m1 ++ m2) k = none := by
  rw [mapFind?_eq_none_iff] at *
  intro kv hkv
  rcases List.mem_append.mp hkv with h | h
  exacts [h1 kv h, h2 kv h]

theorem mapDelete_cons_self {V : Type} {kv0 : String × CacheEntry V}
    {rest : List (String × CacheEntry V)} (h : kv0.1 ∉ rest.map Prod.fst) :
    mapDelete (kv0 :: rest) kv0.1 = rest := by
  have hrest : rest.filter (fun kv => !decide (kv.1 = kv0.1)) = rest := by
    apply List.filter_eq_self.mpr
    intro kv hkv
    simp only [Bool.not_eq_true', decide_eq_false_iff_not]
    intro heq
    exact h (heq ▸ List.mem_map_of_mem Prod.fst hkv)
  simp [mapDelete, hrest]

theorem applyOp_length_le {V : Type} (c : CacheService V) (op : CacheOp V)
    (hpos : 0 < c.maxSize) (hlen : c.cache.length ≤ c.maxSize) :
    (applyOp c op).cache.length ≤ c.maxSize ∧ (applyOp c op).maxSize = c.maxSize := by
  cases op with
  | set now key value ttlMs =>
    simp only [applyOp, CacheService.set]
    by_cases hcond : (decide (c.maxSize ≤ c.cache.length) && (mapFind? c.cache key).isNone) = true
    · rw [if_pos hcond]
      have hcap : c.maxSize ≤ c.cache.length := by
        simp only [Bool.and_eq_true, decide_eq_true_eq] at hcond
        exact hcond.1
      have habs : mapFind? c.cache key = none := by
        simp only [Bool.and_eq_true, Option.isNone_iff_eq_none] at hcond
        exact hcond.2
      refine ⟨?_, trivial⟩
      cases hc : c.cache with
      | nil =>
        rw [hc] at hcap
        simp at hcap
        omega
      | cons kv0 rest =>
        have habs2 : mapFind? (mapDelete (kv0 :: rest) kv0.1) key = none :=
          mapFind?_filter_none _ (hc ▸ habs)
        show (mapSet (mapDelete (kv0 :: rest) kv0.1) key _).length ≤ c.maxSize
        rw [mapSet_absent _ habs2]
        have hdel : (mapDelete (kv0 :: rest) kv0.1).length ≤ rest.length := by
          have hstep : mapDelete (kv0 :: rest) kv0.1
              = rest.filter (fun kv => !decide (kv.1 = kv0.1)) := by
            simp [mapDelete]
          rw [hstep]
          exact List.length_filter_le _ _
        have hlc : (kv0 :: rest).length ≤ c.maxSize := hc ▸ hlen
        simp only [List.length_append, List.length_cons, List.length_nil] at *
        omega
    · rw [if_neg hcond]
      cases hf : mapFind? c.cache key with
      | some e0 =>
        refine ⟨?_, trivial⟩
        show (mapSet c.cache key _).length ≤ c.maxSize
        rw [mapSet_present_length _ hf]
        exact hlen
      | none =>
        have hlt : c.cache.length < c.maxSize := by
          by_contra hge
          exact hcond (by simp [hf, Nat.le_of_not_lt hge])
        refine ⟨?_, trivial⟩
        show (mapSet c.cache key _).length ≤ c.maxSize
        rw [mapSet_absent _ hf]
        simp only [List.length_append, List.length_cons, List.length_nil]
        omega
  | get now key =>
    simp only [applyOp, CacheService.get]
    cases hf : mapFind? c.cache key with
    | none =>
      simp only [hf]
      exact ⟨hlen, trivial⟩
    | some e =>
      simp only [hf]
      by_cases hexp : e.expiry < now
      · rw [if_pos hexp]
        exact ⟨le_trans (mapDelete_length_le _ _) hlen, rfl⟩
      · rw [if_neg hexp]
        refine ⟨?_, rfl⟩
        show (mapSet (mapDelete c.cache key) key e).length ≤ c.maxSize
        rw [mapSet_absent _ (mapDelete_find?_self _ _)]
        have hlt := mapDelete_length_lt hf
        simp only [List.length_append, List.length_cons, List.length_nil]
        omega

theorem runOps_length_le {V : Type} (ops : List (CacheOp V)) :
    ∀ c : CacheService V, 0 < c.maxSize → c.cache.length ≤ c.maxSize →
      (runOps c ops).cache.length ≤ c.maxSize ∧ (runOps c ops).maxSize = c.maxSize := by
  induction ops with
  | nil => exact fun c _ h => ⟨h, rfl⟩
  | cons op rest ih =>
    intro c hpos hlen
    have step := applyOp_length_le c op hpos hlen
    have tailres := ih (applyOp c op) (step.2 ▸ hpos) (step.2 ▸ step.1)
    constructor
    · calc (runOps (applyOp c op) rest).cache.length ≤ (applyOp c op).maxSize := tailres.1
        _ = c.maxSize := step.2
    · calc (runOps (applyOp c op) rest).maxSize = (applyOp c op).maxSize := tailres.2
        _ = c.maxSize := step.2

theorem drop_add_one_cons {α : Type} (n : Nat) (a : α) (l : List α) :
    List.drop (n + 1) (a :: l) = List.drop n l := rfl

theorem runSets_window {V : Type} (v : V) (t : Nat) :
    ∀ (keys : List String) (c : CacheService V), 0 < c.maxSize →
      (c.cache.map Prod.fst).Nodup → keys.Nodup →
      (∀ k ∈ keys, mapFind? c.cache k = none) →
      c.cache.length ≤ c.maxSize →
      (runOps c (keys.map fun k => CacheOp.set t k v none)).cache
        = (c.cache ++ keys.map fun k =>
            (k, ({ value := v, expiry := t + c.defaultTTL, createdAt := t } : CacheEntry V))).drop
            (c.cache.length + keys.length - c.maxSize) := by
  intro keys
  induction keys with
  | nil =>
    intro c hpos hcnd hknd hfresh hlen
    simp only [List.map_nil, runOps, List.foldl_nil, List.append_nil, List.length_nil,
      Nat.add_zero]
    rw [Nat.sub_eq_zero_of_le hlen, List.drop_zero]
  | cons k ks ih =>
    intro c hpos hcnd hknd hfresh hlen
    have hfk : mapFind? c.cache k = none := hfresh k (List.mem_cons_self _ _)
    have hkks : k ∉ ks := (List.nodup_cons.mp hknd).1
    have hksnd : ks.Nodup := (List.nodup_cons.mp hknd).2
    have hknotin : k ∉ c.cache.map Prod.fst := by
      intro hmem
      obtain ⟨kv, hkv, hkv1⟩ := List.mem_map.mp hmem
      exact (mapFind?_eq_none_iff.mp hfk kv hkv) hkv1
    have hdt : (applyOp c (CacheOp.set t k v none)).defaultTTL = c.defaultTTL := rfl
    have hms : (applyOp c (CacheOp.set t k v none)).maxSize = c.maxSize := rfl
    show (runOps (applyOp c (CacheOp.set t k v none))
        (ks.map fun k => CacheOp.set t k v none)).cache = _
    by_cases hat : c.maxSize ≤ c.cache.length
    · have hcond : (decide (c.maxSize ≤ c.cache.length)
          && (mapFind? c.cache k).isNone) = true := by
        simp [hat, hfk]
      cases hc : c.cache with
      | nil =>
        rw [hc] at hat
        simp at hat
        omega
      | cons kv0 rest =>
        have hcnd2 : (kv0.1 :: rest.map Prod.fst).Nodup := by
          have := hcnd
          rw [hc] at this
          simpa using this
        have hknd0 : kv0.1 ∉ rest.map Prod.fst := (List.nodup_cons.mp hcnd2).1
        have hrestabs : mapFind? rest k = none := by
          rw [mapFind?_eq_none_iff]
          intro kv hkv
          have := mapFind?_eq_none_iff.mp hfk
          rw [hc] at this
          exact this kv (List.mem_cons_of_mem _ hkv)
        have hc' : (applyOp c (CacheOp.set t k v none)).cache
            = rest ++ [(k, { value := v, expiry := t + c.defaultTTL, createdAt := t })] := by
          simp only [applyOp, CacheService.set, if_pos hcond]
          rw [hc]
          show mapSet (mapDelete (kv0 :: rest) kv0.1) k _ = _
          rw [mapDelete_cons_self hknd0]
          exact mapSet_absent _ hrestabs
        have hknotrest : k ∉ rest.map Prod.fst := by
          intro hmem
          obtain ⟨kv, hkv, hkv1⟩ := List.mem_map.mp hmem
          exact (mapFind?_eq_none_iff.mp hrestabs kv hkv) hkv1
        have ihres := ih (applyOp c (CacheOp.set t k v none)) (hms ▸ hpos)
          (by
            rw [hc']
            simp only [List.map_append, List.map_cons, List.map_nil]
            rw [List.nodup_append]
            refine ⟨(List.nodup_cons.mp hcnd2).2, List.nodup_singleton _, ?_⟩
            intro a ha hb
            simp at hb
            subst hb
            exact hknotrest ha)
          hksnd
          (by
            intro k2 hk2
            rw [hc']
            apply mapFind?_append_none
            · rw [mapFind?_eq_none_iff]
              intro kv hkv
              have := mapFind?_eq_none_iff.mp (hfresh k2 (List.mem_cons_of_mem _ hk2))
              rw [hc] at this
              exact this kv (List.mem_cons_of_mem _ hkv)
            · rw [mapFind?_eq_none_iff]
              intro kv hkv
              simp at hkv
              subst hkv
              simp only []
              intro heq
              exact hkks (heq ▸ hk2))
          (by
            rw [hc', hms]
            have : (kv0 :: rest).length ≤ c.maxSize := hc ▸ hlen
            simp only [List.length_append, List.length_cons, List.length_nil] at *
            omega)
        rw [ihres, hc', hdt, hms]
        have hceq : c.cache.length = c.maxSize := by
          exact le_antisymm hlen hat
        have hlen2 : rest.length + 1 = c.maxSize := by
          have := hceq
          rw [hc] at this
          simpa using this
        have hd1 : (rest ++ [(k, ({ value := v, expiry := t + c.defaultTTL, createdAt := t }
            : CacheEntry V))]).length + ks.length - c.maxSize = ks.length := by
          simp only [List.length_append, List.length_cons, List.length_nil]
          omega
        have hd2 : (kv0 :: rest).length + (k :: ks).length - c.maxSize = ks.length + 1 := by
          simp only [List.length_cons]
          omega
        rw [hd1, hd2, List.cons_append, drop_add_one_cons]
        congr 1
        simp [List.append_assoc]
    · have hlt : c.cache.length < c.maxSize := Nat.lt_of_not_le hat
      have hcond : (decide (c.maxSize ≤ c.cache.length)
          && (mapFind? c.cache k).isNone) = false := by
        simp [hat]
      have hc' : (applyOp c (CacheOp.set t k v none)).cache
          = c.cache ++ [(k, { value := v, expiry := t + c.defaultTTL, createdAt := t })] := by
        simp only [applyOp, CacheService.set, hcond, Bool.false_eq_true, if_false]
        exact mapSet_absent _ hfk
      have ihres := ih (applyOp c (CacheOp.set t k v none)) (hms ▸ hpos)
        (by
          rw [hc']
          simp only [List.map_append, List.map_cons, List.map_nil]
          rw [List.nodup_append]
          refine ⟨hcnd, List.nodup_singleton _, ?_⟩
          intro a ha hb
          simp at hb
          subst hb
          exact hknotin ha)
        hksnd
        (by
          intro k2 hk2
          rw [hc']
          apply mapFind?_append_none
          · exact hfresh k2 (List.mem_cons_of_mem _ hk2)
          · rw [mapFind?_eq_none_iff]
            intro kv hkv
            simp at hkv
            subst hkv
            simp only []
            intro heq
            exact hkks (heq ▸ hk2))
        (by
          rw [hc', hms]
          simp only [List.length_append, List.length_cons, List.length_nil]
          omega)
      rw [ihres, hc', hdt, hms]
      have hd3 : (c.cache ++ [(k, ({ value := v, expiry := t + c.defaultTTL, createdAt := t }
          : CacheEntry V))]).length + ks.length - c.maxSize
          = c.cache.length + (k :: ks).length - c.maxSize := by
        simp only [List.length_append, List.length_cons, List.length_nil]
        omega
      rw [hd3]
      congr 1
      simp [List.append_assoc]

/-- C3: starting from an empty cache with capacity `maxSize > 0`, no
sequence of `set`/`get` operations ever makes the store exceed `maxSize`
entries (eviction happens on `set` of a fresh key at capacity, before
growth); and setting `maxSize + 1` distinct keys leaves exactly the last
`maxSize` of them, the first-inserted (least-recently-used) key having
been evicted. -/
theorem cacheCapacity_lru :
    (∀ (V : Type) (maxSize defaultTTL : Nat) (ops : List (CacheOp V)), 0 < maxSize →
      (runOps (emptyCache V maxSize defaultTTL) ops).cache.length ≤ maxSize) ∧
    (∀ (V : Type) (v : V) (t maxSize defaultTTL : Nat) (keys : List String),
      0 < maxSize → keys.Nodup → keys.length = maxSize + 1 →
      (runOps (emptyCache V maxSize defaultTTL)
          (keys.map fun k => CacheOp.set t k v none)).cache.map Prod.fst = keys.tail ∧
      (runOps (emptyCache V maxSize defaultTTL)
          (keys.map fun k => CacheOp.set t k v none)).cache.length = maxSize) := by
  constructor
  · intro V maxSize dttl ops hpos
    exact (runOps_length_le ops (emptyCache V maxSize dttl) hpos
      (by simp [emptyCache])).1
  · intro V v t maxSize dttl keys hpos hnd hlen
    have hw := runSets_window v t keys (emptyCache V maxSize dttl) hpos
      (by simp [emptyCache]) hnd (fun k _ => rfl) (by simp [emptyCache])
    rw [hw]
    simp only [emptyCache, List.nil_append, List.length_nil, Nat.zero_add, hlen]
    have h1 : maxSize + 1 - maxSize = 1 := by omega
    rw [h1]
    cases keys with
    | nil => simp at hlen
    | cons k0 ks =>
      have hks : ks.length = maxSize := by
        simp only [List.length_cons] at hlen
        omega
      simp only [List.map_cons]
      rw [show (1 : Nat) = 0 + 1 from rfl, drop_add_one_cons, List.drop_zero]
      constructor
      · show List.map Prod.fst (List.map _ ks) = ks
        rw [List.map_map]
        exact List.map_id' ks
      · simp [hks]

/-- C3 instance: three distinct keys into a 2-entry cache leave the last
two; an arbitrary concrete op sequence stays within capacity. -/
theorem cacheCapacity_lru_witness :
    (runOps (emptyCache Nat 2 100)
        (["a", "b", "c"].map fun k => CacheOp.set 0 k 7 none)).cache.map Prod.fst
      = ["b", "c"] ∧
    (runOps (emptyCache Nat 2 100)
        [.set 0 "a" 7 none, .get 1 "a", .set 2 "b" 8 none, .set 3 "c" 9 (some 5),
         .get 7 "c"]).cache.length ≤ 2 :=
  ⟨(cacheCapacity_lru.2 Nat 7 0 2 100 ["a", "b", "c"] (by decide) (by decide) (by decide)).1,
   cacheCapacity_lru.1 Nat 2 100 _ (by decide)⟩

/-! ## C6: gap computation -/

theorem mapM_of_forall_some {α β : Type} (f : α → Option β) (g : α → β) :
    ∀ l : List α, (∀ x ∈ l, f x = some (g x)) → l.mapM f = some (l.map g) := by
  intro l
  induction l with
  | nil => intro _; rfl
  | cons x xs ih =>
    intro h
    rw [List.mapM_cons, h x (List.mem_cons_self _ _),
      ih (fun y hy => h y (List.mem_cons_of_mem _ hy))]
    rfl

/-- C6: for a known track, `findGaps` together with the user skills
covers exactly the track's core-skill names: a core skill is a gap iff
its lowercased name is not among the lowercased user skills, the gap
list has no duplicates, each gap carries its catalog weight via
`getSkillWeight`, and `getSkillWeight` returns `0` (not an error) for a
name absent from the catalog. -/
theorem findGaps_covers (track : String) (roadmap : Roadmap)
    (htrack : ROADMAPS track = some roadmap) (userSkillNames : List String) :
    ∃ gaps : List Gap,
      findGaps track userSkillNames (roadmap.coreSkills.map Skill.name) = some gaps ∧
      gaps.map Gap.skill = (roadmap.coreSkills.map Skill.name).filter
        (fun c => !decide (c.toLowerCase ∈ userSkillNames.map String.toLowerCase)) ∧
      (∀ coreSkill ∈ roadmap.coreSkills.map Skill.name,
        (coreSkill ∈ gaps.map Gap.skill ↔
          coreSkill.toLowerCase ∉ userSkillNames.map String.toLowerCase)) ∧
      (gaps.map Gap.skill).Nodup ∧
      (∀ gap ∈ gaps, getSkillWeight track gap.skill = some gap.weight) ∧
      (∀ skillName : String,
        (∀ s ∈ roadmap.coreSkills, ¬ s.name.toLowerCase = skillName.toLowerCase) →
        getSkillWeight track skillName = some 0) := by
  have hcore : getCoreSkills track = some roadmap.coreSkills := by
    simp [getCoreSkills, htrack]
  have hweight : ∀ skillName : String,
      getSkillWeight track skillName = some
        (match roadmap.coreSkills.find?
            (fun s => decide (s.name.toLowerCase = skillName.toLowerCase)) with
         | some s => s.weight
         | none => 0) := by
    intro skillName
    simp [getSkillWeight, hcore]
  set wf : String → Nat := fun skillName =>
    match roadmap.coreSkills.find?
        (fun s => decide (s.name.toLowerCase = skillName.toLowerCase)) with
    | some s => s.weight
    | none => 0 with hwf
  set filtered : List String := (roadmap.coreSkills.map Skill.name).filter
    (fun c => !decide (c.toLowerCase ∈ userSkillNames.map String.toLowerCase)) with hfiltered
  refine ⟨filtered.map (fun s => { skill := s, weight := wf s }), ?_, ?_, ?_, ?_, ?_, ?_⟩
  · unfold findGaps
    exact mapM_of_forall_some _ _ _ (fun s _ => by rw [hweight s]; rfl)
  · rw [List.map_map]
    exact List.map_id' filtered
  · intro coreSkill hmem
    rw [List.map_map]
    have hid : filtered.map (Gap.skill ∘ fun s => { skill := s, weight := wf s })
        = filtered := List.map_id' filtered
    rw [hid, hfiltered]
    rw [List.mem_filter]
    simp [hmem]
  · rw [List.map_map]
    have hid : filtered.map (Gap.skill ∘ fun s => { skill := s, weight := wf s })
        = filtered := List.map_id' filtered
    rw [hid]
    apply List.Nodup.filter
    -- core-skill names of each track are duplicate-free
    unfold ROADMAPS at htrack
    by_cases h1 : track = "frontend"
    · rw [if_pos h1] at htrack
      cases htrack
      decide
    · rw [if_neg h1] at htrack
      by_cases h2 : track = "backend"
      · rw [if_pos h2] at htrack
        cases htrack
        decide
      · rw [if_neg h2] at htrack
        by_cases h3 : track = "fullstack"
        · rw [if_pos h3] at htrack
          cases htrack
          decide
        · rw [if_neg h3] at htrack
          cases htrack
  · intro gap hgap
    obtain ⟨s, _, hs⟩ := List.mem_map.mp hgap
    rw [← hs, hweight s]
  · intro skillName habsent
    have hfind : roadmap.coreSkills.find?
        (fun s => decide (s.name.toLowerCase = skillName.toLowerCase)) = none := by
      rw [List.find?_eq_none]
      intro s hs
      simp only [decide_eq_true_eq]
      exact habsent s hs
    rw [hweight skillName, hfind]

/-- C6 instance: the frontend track with user skills HTML and CSS. -/
theorem findGaps_covers_witness :
    ∃ gaps : List Gap,
      findGaps "frontend" ["HTML", "CSS"] (frontendRoadmap.coreSkills.map Skill.name)
        = some gaps ∧
      gaps.map Gap.skill = (frontendRoadmap.coreSkills.map Skill.name).filter
        (fun c => !decide (c.toLowerCase ∈ (["HTML", "CSS"] : List String).map String.toLowerCase)) ∧
      (∀ coreSkill ∈ frontendRoadmap.coreSkills.map Skill.name,
        (coreSkill ∈ gaps.map Gap.skill ↔
          coreSkill.toLowerCase ∉ (["HTML", "CSS"] : List String).map String.toLowerCase)) ∧
      (gaps.map Gap.skill).Nodup ∧
      (∀ gap ∈ gaps, getSkillWeight "frontend" gap.skill = some gap.weight) ∧
      (∀ skillName : String,
        (∀ s ∈ frontendRoadmap.coreSkills, ¬ s.name.toLowerCase = skillName.toLowerCase) →
        getSkillWeight "frontend" skillName = some 0) :=
  findGaps_covers "frontend" frontendRoadmap (by decide) ["HTML", "CSS"]

/-! ## C8: coverage percentage -/

theorem getCoreSkills_nonempty (track : String) (coreSkills : List Skill)
    (h : getCoreSkills track = some coreSkills) : coreSkills.length ≠ 0 := by
  unfold getCoreSkills ROADMAPS at h
  by_cases h1 : track = "frontend"
  · rw [if_pos h1] at h
    simp only [Option.map_some'] at h
    cases h
    decide
  · rw [if_neg h1] at h
    by_cases h2 : track = "backend"
    · rw [if_pos h2] at h
      simp only [Option.map_some'] at h
      cases h
      decide
    · rw [if_neg h2] at h
      by_cases h3 : track = "fullstack"
      · rw [if_pos h3] at h
        simp only [Option.map_some'] at h
        cases h
        decide
      · rw [if_neg h3] at h
        simp at h

/-- C8: whenever `validateSkills` produces a coverage value, the track's
catalog was found and non-empty, and the value is exactly
`(1 - gapCount / coreSkillCount) * 100` rounded to one decimal place
(`toFixed(1)`); a configuration for which the core-skill count would be
zero does not exist for any known track, and an unknown track fails fast
(`getCoreSkills` throws, modelled as `none`) before any division. -/
theorem validateSkillsCoverage_spec :
    (∀ (track : String) (userSkillNames : List String) (q : ℚ),
      validateSkillsCoverage track userSkillNames = some q →
      ∃ (coreSkills : List Skill) (gaps : List Gap),
        getCoreSkills track = some coreSkills ∧ coreSkills.length ≠ 0 ∧
        findGaps track userSkillNames (coreSkills.map Skill.name) = some gaps ∧
        q = toFixed1 ((1 - (gaps.length : ℚ) / (coreSkills.length : ℚ)) * 100)) ∧
    (∀ (track : String) (coreSkills : List Skill),
      getCoreSkills track = some coreSkills → coreSkills.length ≠ 0) ∧
    (∀ track : String, getCoreSkills track = none →
      ∀ userSkillNames, validateSkillsCoverage track userSkillNames = none) := by
  refine ⟨?_, getCoreSkills_nonempty, ?_⟩
  · intro track userSkillNames q hq
    unfold validateSkillsCoverage at hq
    cases hcs : getCoreSkills track with
    | none => rw [hcs] at hq; cases hq
    | some coreSkills =>
      rw [hcs] at hq
      dsimp only [] at hq
      cases hg : findGaps track userSkillNames (coreSkills.map Skill.name) with
      | none => rw [hg] at hq; cases hq
      | some gaps =>
        rw [hg] at hq
        simp only [Option.map_some'] at hq
        refine ⟨coreSkills, gaps, rfl, getCoreSkills_nonempty track coreSkills hcs, hg, ?_⟩
        rw [← Option.some_inj.mp hq]
        rw [List.length_map]
  · intro track htrack userSkillNames
    unfold validateSkillsCoverage
    rw [htrack]

/-- C8 instance: an unknown track fails fast, a known track has a
non-empty catalog. -/
theorem validateSkillsCoverage_spec_witness :
    validateSkillsCoverage "devops" ["HTML"] = none ∧
    frontendRoadmap.coreSkills.length ≠ 0 :=
  ⟨validateSkillsCoverage_spec.2.2 "devops" (by decide) ["HTML"],
   validateSkillsCoverage_spec.2.1 "frontend" frontendRoadmap.coreSkills (by decide)⟩

/-! ## C9: next-skill suggestions -/

theorem suggestionFor_of_allMet {track : String} {learnedSet : List String} {g : String}
    (h : (getPrerequisites track g).filter
      (fun p => !decide (p.toLowerCase ∈ learnedSet)) = []) :
    suggestionFor track learnedSet g
      = some { skill := g, reason := "Prerequisites met",
               prereqs := getPrerequisites track g, missingPrereqs := none } := by
  unfold suggestionFor
  rw [if_pos ?hall]
  case hall =>
    rw [List.all_eq_true]
    intro p hp
    have := List.filter_eq_nil_iff.mp h p hp
    simpa using this

theorem suggestionFor_of_oneMissing {track : String} {learnedSet : List String}
    {g p : String}
    (h : (getPrerequisites track g).filter
      (fun p2 => !decide (p2.toLowerCase ∈ learnedSet)) = [p]) :
    suggestionFor track learnedSet g
      = some { skill := g, reason := "Learn " ++ p ++ " first",
               prereqs := getPrerequisites track g, missingPrereqs := some [p] } := by
  unfold suggestionFor
  have hp : p ∈ (getPrerequisites track g).filter
      (fun p2 => !decide (p2.toLowerCase ∈ learnedSet)) := by
    rw [h]
    exact List.mem_singleton_self p
  have hmemp := List.mem_filter.mp hp
  rw [if_neg ?hnall]
  case hnall =>
    rw [List.all_eq_true]
    intro hall
    have := hall p hmemp.1
    rw [this] at hmemp
    simp at hmemp
  rw [h]

theorem suggestionFor_some {track : String} {learnedSet : List String} {g : String}
    {sug : Suggestion} (h : suggestionFor track learnedSet g = some sug) :
    sug.skill = g ∧
    (((getPrerequisites track g).filter
        (fun p => !decide (p.toLowerCase ∈ learnedSet)) = [] ∧
      sug.reason = "Prerequisites met") ∨
     (∃ p, (getPrerequisites track g).filter
        (fun p2 => !decide (p2.toLowerCase ∈ learnedSet)) = [p] ∧
      sug.reason = "Learn " ++ p ++ " first")) := by
  unfold suggestionFor at h
  by_cases hall : ((getPrerequisites track g).all
      fun prereq => decide (prereq.toLowerCase ∈ learnedSet)) = true
  · rw [if_pos hall] at h
    cases h
    refine ⟨rfl, Or.inl ⟨?_, rfl⟩⟩
    rw [List.filter_eq_nil_iff]
    intro p hp
    have := List.all_eq_true.mp hall p hp
    simp [this]
  · rw [if_neg hall] at h
    cases hm : (getPrerequisites track g).filter
        (fun p2 => !decide (p2.toLowerCase ∈ learnedSet)) with
    | nil =>
      exfalso
      apply hall
      rw [List.all_eq_true]
      intro p hp
      have := List.filter_eq_nil_iff.mp hm p hp
      simpa using this
    | cons m rest =>
      cases rest with
      | nil =>
        rw [hm] at h
        cases h
        exact ⟨rfl, Or.inr ⟨m, rfl, rfl⟩⟩
      | cons m2 rest2 =>
        rw [hm] at h
        cases h

/-- C9: `getSuggestedNext` returns at most `count` suggestions; every
returned suggestion is a gap skill with at most one missing direct
prerequisite (case-insensitively against the current skills), carrying
the reason `Prerequisites met` when none is missing and
`Learn X first` naming the missing prerequisite when exactly one is; a
gap skill with two or more missing prerequisites never appears; and
when `count` covers the whole gap list, every fully-met gap skill and
every one-missing gap skill is suggested. -/
theorem getSuggestedNext_spec (track : String) (currentSkills gapSkills : List String)
    (count : Nat) :
    ((getSuggestedNext track currentSkills gapSkills count).length ≤ count) ∧
    (∀ sug ∈ getSuggestedNext track currentSkills gapSkills count,
      sug.skill ∈ gapSkills ∧
      ((getPrerequisites track sug.skill).filter
        (fun p => !decide (p.toLowerCase ∈ currentSkills.map String.toLowerCase))).length ≤ 1 ∧
      ((getPrerequisites track sug.skill).filter
          (fun p => !decide (p.toLowerCase ∈ currentSkills.map String.toLowerCase)) = [] →
        sug.reason = "Prerequisites met") ∧
      (∀ p, (getPrerequisites track sug.skill).filter
          (fun p2 => !decide (p2.toLowerCase ∈ currentSkills.map String.toLowerCase)) = [p] →
        sug.reason = "Learn " ++ p ++ " first")) ∧
    (∀ g ∈ gapSkills,
      2 ≤ ((getPrerequisites track g).filter
        (fun p => !decide (p.toLowerCase ∈ currentSkills.map String.toLowerCase))).length →
      ∀ sug ∈ getSuggestedNext track currentSkills gapSkills count, sug.skill ≠ g) ∧
    (∀ g ∈ gapSkills,
      (getPrerequisites track g).filter
        (fun p => !decide (p.toLowerCase ∈ currentSkills.map String.toLowerCase)) = [] →
      gapSkills.length ≤ count →
      ∃ sug ∈ getSuggestedNext track currentSkills gapSkills count,
        sug.skill = g ∧ sug.reason = "Prerequisites met") ∧
    (∀ g ∈ gapSkills, ∀ p,
      (getPrerequisites track g).filter
        (fun p2 => !decide (p2.toLowerCase ∈ currentSkills.map String.toLowerCase)) = [p] →
      gapSkills.length ≤ count →
      ∃ sug ∈ getSuggestedNext track currentSkills gapSkills count,
        sug.skill = g ∧ sug.reason = "Learn " ++ p ++ " first") := by
  have hmem : ∀ sug ∈ getSuggestedNext track currentSkills gapSkills count,
      ∃ g ∈ gapSkills,
        suggestionFor track (currentSkills.map String.toLowerCase) g = some sug := by
    intro sug hsug
    have hcand : sug ∈ gapSkills.filterMap
        (suggestionFor track (currentSkills.map String.toLowerCase)) :=
      List.take_subset _ _ hsug
    obtain ⟨g, hg, hsome⟩ := List.mem_filterMap.mp hcand
    exact ⟨g, hg, hsome⟩
  have htake : gapSkills.length ≤ count →
      getSuggestedNext track currentSkills gapSkills count
        = gapSkills.filterMap (suggestionFor track (currentSkills.map String.toLowerCase)) := by
    intro hb
    unfold getSuggestedNext
    exact List.take_of_length_le (le_trans (List.length_filterMap_le _ _) hb)
  refine ⟨List.length_take_le _ _, ?_, ?_, ?_, ?_⟩
  · intro sug hsug
    obtain ⟨g, hg, hsome⟩ := hmem sug hsug
    obtain ⟨hskill, hcases⟩ := suggestionFor_some hsome
    subst hskill
    rcases hcases with ⟨hnil, hreason⟩ | ⟨p, hone, hreason⟩
    · refine ⟨hg, by rw [hnil]; decide, fun _ => hreason, ?_⟩
      intro p hp
      rw [hnil] at hp
      cases hp
    · refine ⟨hg, by rw [hone]; simp, ?_, ?_⟩
      · intro hnil
        rw [hnil] at hone
        cases hone
      · intro p2 hp2
        rw [hone] at hp2
        cases hp2
        exact hreason
  · intro g hg h2 sug hsug heq
    obtain ⟨g2, _, hsome⟩ := hmem sug hsug
    obtain ⟨hskill, hcases⟩ := suggestionFor_some hsome
    have hgg : g2 = g := by rw [← hskill, heq]
    subst hgg
    rcases hcases with ⟨hnil, _⟩ | ⟨p, hone, _⟩
    · rw [hnil] at h2
      simp at h2
    · rw [hone] at h2
      simp at h2
  · intro g hg hnil hb
    rw [htake hb]
    refine ⟨{ skill := g, reason := "Prerequisites met",
              prereqs := getPrerequisites track g, missingPrereqs := none }, ?_, rfl, rfl⟩
    exact List.mem_filterMap.mpr ⟨g, hg, suggestionFor_of_allMet hnil⟩
  · intro g hg p hone hb
    rw [htake hb]
    refine ⟨{ skill := g, reason := "Learn " ++ p ++ " first",
              prereqs := getPrerequisites track g, missingPrereqs := some [p] }, ?_, rfl, rfl⟩
    exact List.mem_filterMap.mpr ⟨g, hg, suggestionFor_of_oneMissing hone⟩

/-- C9 instance: with current skills HTML and CSS and gaps JavaScript,
React, ES6+, the fully-met gap JavaScript is suggested, ES6+ is
suggested with the nudge naming its single missing prerequisite, and
React (two missing prerequisites) never appears. -/
theorem getSuggestedNext_spec_witness :
    (getSuggestedNext "frontend" ["HTML", "CSS"] ["JavaScript", "React", "ES6+"] 3).length ≤ 3 ∧
    (∃ sug ∈ getSuggestedNext "frontend" ["HTML", "CSS"] ["JavaScript", "React", "ES6+"] 3,
      sug.skill = "JavaScript" ∧ sug.reason = "Prerequisites met") ∧
    (∃ sug ∈ getSuggestedNext "frontend" ["HTML", "CSS"] ["JavaScript", "React", "ES6+"] 3,
      sug.skill = "ES6+" ∧ sug.reason = "Learn " ++ "JavaScript" ++ " first") ∧
    (∀ sug ∈ getSuggestedNext "frontend" ["HTML", "CSS"] ["JavaScript", "React", "ES6+"] 3,
      sug.skill ≠ "React") := by
  have hspec := getSuggestedNext_spec "frontend" ["HTML", "CSS"]
    ["JavaScript", "React", "ES6+"] 3
  refine ⟨hspec.1, ?_, ?_, ?_⟩
  · exact hspec.2.2.2.1 "JavaScript" (by decide) (by decide) (by decide)
  · exact hspec.2.2.2.2 "ES6+" (by decide) "JavaScript" (by decide) (by decide)
  · exact hspec.2.2.1 "React" (by decide) (by decide)

/-! ## Learning-order lemmas (towards C1 and C2) -/

theorem dedupFirstAux_mem : ∀ (l seen : List String) (a : String),
    a ∈ dedupFirstAux seen l ↔ a ∈ l ∧ a ∉ seen := by
  intro l
  induction l with
  | nil => intro seen a; simp [dedupFirstAux]
  | cons x xs ih =>
    intro seen a
    unfold dedupFirstAux
    by_cases hx : x ∈ seen
    · rw [if_pos hx, ih]
      constructor
      · rintro ⟨h1, h2⟩
        exact ⟨List.mem_cons_of_mem _ h1, h2⟩
      · rintro ⟨h1, h2⟩
        rcases List.mem_cons.mp h1 with rfl | h1
        · exact absurd hx h2
        · exact ⟨h1, h2⟩
    · rw [if_neg hx]
      constructor
      · intro h
        rcases List.mem_cons.mp h with rfl | h
        · exact ⟨List.mem_cons_self _ _, hx⟩
        · have := (ih (x :: seen) a).mp h
          exact ⟨List.mem_cons_of_mem _ this.1,
            fun hs => this.2 (List.mem_cons_of_mem _ hs)⟩
      · rintro ⟨h1, h2⟩
        rcases List.mem_cons.mp h1 with rfl | h1
        · exact List.mem_cons_self _ _
        · by_cases hax : a = x
          · subst hax
            exact List.mem_cons_self _ _
          · refine List.mem_cons_of_mem _ ((ih _ _).mpr ⟨h1, ?_⟩)
            intro hmem
            rcases List.mem_cons.mp hmem with h | h
            · exact hax h
            · exact h2 h

theorem dedupFirst_mem (l : List String) (a : String) : a ∈ dedupFirst l ↔ a ∈ l := by
  unfold dedupFirst
  rw [dedupFirstAux_mem]
  simp

theorem dedupFirstAux_nodup : ∀ (l seen : List String), (dedupFirstAux seen l).Nodup := by
  intro l
  induction l with
  | nil => intro seen; simp [dedupFirstAux]
  | cons x xs ih =>
    intro seen
    unfold dedupFirstAux
    by_cases hx : x ∈ seen
    · rw [if_pos hx]
      exact ih seen
    · rw [if_neg hx]
      rw [List.nodup_cons]
      refine ⟨?_, ih _⟩
      intro hmem
      exact ((dedupFirstAux_mem _ _ _).mp hmem).2 (List.mem_cons_self _ _)

theorem dedupFirst_nodup (l : List String) : (dedupFirst l).Nodup :=
  dedupFirstAux_nodup l []

theorem dedupFirstAux_eq_self : ∀ (l seen : List String), l.Nodup →
    (∀ a ∈ l, a ∉ seen) → dedupFirstAux seen l = l := by
  intro l
  induction l with
  | nil => intro seen _ _; rfl
  | cons x xs ih =>
    intro seen hnd hdis
    unfold dedupFirstAux
    rw [if_neg (hdis x (List.mem_cons_self _ _))]
    congr 1
    apply ih _ (List.nodup_cons.mp hnd).2
    intro a ha hmem
    rcases List.mem_cons.mp hmem with rfl | h
    · exact (List.nodup_cons.mp hnd).1 ha
    · exact hdis a (List.mem_cons_of_mem _ ha) h

theorem dedupFirst_eq_self {l : List String} (h : l.Nodup) : dedupFirst l = l :=
  dedupFirstAux_eq_self l [] h (fun a _ => List.not_mem_nil a)

theorem dedupFirstAux_length_le : ∀ (l seen : List String),
    (dedupFirstAux seen l).length ≤ l.length := by
  intro l
  induction l with
  | nil => intro seen; simp [dedupFirstAux]
  | cons x xs ih =>
    intro seen
    unfold dedupFirstAux
    by_cases hx : x ∈ seen
    · rw [if_pos hx]
      exact le_trans (ih seen) (Nat.le_succ _)
    · rw [if_neg hx]
      exact Nat.succ_le_succ (ih _)

theorem dedupFirst_length_le (l : List String) : (dedupFirst l).length ≤ l.length :=
  dedupFirstAux_length_le l []

theorem eligible_iff {g : Graph} {skillNames ordered : List String} {skill : String} :
    eligible g skillNames ordered skill = true ↔
      ∀ p ∈ lookupPrereqs g skill, p ∈ ordered ∨ p ∉ skillNames := by
  unfold eligible
  rw [List.all_eq_true]
  constructor
  · intro h p hp
    have := h p hp
    simpa using this
  · intro h p hp
    rcases h p hp with h1 | h1 <;> simp [h1]

theorem onePass_spec (g : Graph) (skillNames : List String) :
    ∀ (rem ordered : List String),
      ∃ a, (onePass g skillNames ordered rem).1 = ordered ++ a ∧
        rem.Perm (a ++ (onePass g skillNames ordered rem).2) ∧
        (onePass g skillNames ordered rem).2.Sublist rem := by
  intro rem
  induction rem with
  | nil =>
    intro ordered
    exact ⟨[], by simp [onePass], by simp [onePass], by simp [onePass]⟩
  | cons s rest ih =>
    intro ordered
    unfold onePass
    by_cases he : eligible g skillNames ordered s = true
    · rw [if_pos he]
      obtain ⟨a, h1, h2, h3⟩ := ih (ordered ++ [s])
      refine ⟨s :: a, ?_, ?_, ?_⟩
      · rw [h1, List.append_assoc]
        rfl
      · exact h2.cons s
      · exact h3.trans (List.sublist_cons_self _ _)
    · rw [if_neg he]
      obtain ⟨a, h1, h2, h3⟩ := ih ordered
      refine ⟨a, h1, ?_, ?_⟩
      · exact (h2.cons s).trans List.perm_middle.symm
      · exact h3.cons₂ s

theorem loGo_perm (g : Graph) (skillNames : List String) :
    ∀ (fuel : Nat) (rem ordered : List String), rem.length ≤ fuel →
      (loGo g skillNames fuel ordered rem).Perm (ordered ++ rem) := by
  intro fuel
  induction fuel with
  | zero =>
    intro rem ordered hlen
    have hnil : rem = [] := List.length_eq_zero.mp (Nat.le_zero.mp hlen)
    subst hnil
    simp [loGo]
  | succ fuel ih =>
    intro rem ordered hlen
    cases rem with
    | nil => simp [loGo]
    | cons r0 rest =>
      obtain ⟨a, h1, h2, h3⟩ := onePass_spec g skillNames (r0 :: rest) ordered
      have hkey : ((onePass g skillNames ordered (r0 :: rest)).1
          ++ (onePass g skillNames ordered (r0 :: rest)).2).Perm (ordered ++ (r0 :: rest)) := by
        rw [h1, List.append_assoc]
        exact h2.symm.append_left ordered
      unfold loGo
      by_cases hlen2 : (onePass g skillNames ordered (r0 :: rest)).2.length
          = (r0 :: rest).length
      · rw [if_pos hlen2]
        exact ((List.perm_insertionSort _ _).append_left
          (onePass g skillNames ordered (r0 :: rest)).1).trans hkey
      · rw [if_neg hlen2]
        have hlt : (onePass g skillNames ordered (r0 :: rest)).2.length
            < (r0 :: rest).length := lt_of_le_of_ne h3.length_le hlen2
        have hrec := ih (onePass g skillNames ordered (r0 :: rest)).2
          (onePass g skillNames ordered (r0 :: rest)).1 (by omega)
        exact hrec.trans hkey

theorem learnOrderCore_perm_dedup (g : Graph) (skillNames : List String) :
    (learnOrderCore g skillNames).Perm (dedupFirst skillNames) := by
  unfold learnOrderCore
  have := loGo_perm g skillNames (2 * skillNames.length) (dedupFirst skillNames) []
    (le_trans (dedupFirst_length_le _) (by omega))
  simpa using this

theorem loGo_flush (g : Graph) (skillNames ordered : List String) (r0 : String)
    (rest : List String) (fuel : Nat)
    (hpass : onePass g skillNames ordered (r0 :: rest) = (ordered, r0 :: rest)) :
    loGo g skillNames (fuel + 1) ordered (r0 :: rest)
      = ordered ++ ((r0 :: rest).insertionSort (· ≤ ·)) := by
  unfold loGo
  rw [hpass]
  simp

theorem goodAcc_append (g : Graph) (skillNames : List String) :
    ∀ (l pre : List String) (s : String), GoodAcc g skillNames pre l →
      (∀ p ∈ lookupPrereqs g s, p ∈ skillNames → p ∈ pre ++ l) →
      GoodAcc g skillNames pre (l ++ [s]) := by
  intro l
  induction l with
  | nil =>
    intro pre s _ hcond
    exact ⟨fun p hp hin => by simpa using hcond p hp hin, trivial⟩
  | cons x xs ih =>
    intro pre s hgood hcond
    refine ⟨hgood.1, ?_⟩
    apply ih (pre ++ [x]) s hgood.2
    intro p hp hin
    have := hcond p hp hin
    rw [List.append_assoc]
    simpa using this

theorem onePass_good (g : Graph) (skillNames : List String) :
    ∀ (rem ordered : List String), GoodAcc g skillNames [] ordered →
      GoodAcc g skillNames [] (onePass g skillNames ordered rem).1 := by
  intro rem
  induction rem with
  | nil => intro ordered h; exact h
  | cons s rest ih =>
    intro ordered h
    unfold onePass
    by_cases he : eligible g skillNames ordered s = true
    · rw [if_pos he]
      apply ih
      apply goodAcc_append g skillNames ordered [] s h
      intro p hp hin
      rcases eligible_iff.mp he p hp with h1 | h1
      · simpa using h1
      · exact absurd hin h1
    · rw [if_neg he]
      exact ih ordered h

theorem onePass_stall (g : Graph) (skillNames : List String) :
    ∀ (rem ordered : List String),
      (onePass g skillNames ordered rem).2.length = rem.length →
      onePass g skillNames ordered rem = (ordered, rem) ∧
        ∀ s ∈ rem, eligible g skillNames ordered s = false := by
  intro rem
  induction rem with
  | nil => intro ordered _; exact ⟨rfl, by simp⟩
  | cons s rest ih =>
    intro ordered hlen
    by_cases he : eligible g skillNames ordered s = true
    · exfalso
      have hsub := (onePass_spec g skillNames rest (ordered ++ [s])).choose_spec.2.2
      have hle := hsub.length_le
      unfold onePass at hlen
      rw [if_pos he] at hlen
      simp only [List.length_cons] at hlen
      omega
    · have hstep : onePass g skillNames ordered (s :: rest)
          = ((onePass g skillNames ordered rest).1,
             s :: (onePass g skillNames ordered rest).2) := by
        simp only [onePass]
        rw [if_neg he]
      rw [hstep] at hlen ⊢
      simp only [List.length_cons] at hlen
      have hlen2 : (onePass g skillNames ordered rest).2.length = rest.length := by omega
      obtain ⟨heq, hall⟩ := ih ordered hlen2
      rw [heq]
      refine ⟨rfl, ?_⟩
      intro s2 hs2
      rcases List.mem_cons.mp hs2 with rfl | h
      · simpa using he
      · exact hall s2 h

theorem exists_min_rank (m : String → Nat) :
    ∀ (l : List String), l ≠ [] → ∃ a ∈ l, ∀ b ∈ l, m a ≤ m b := by
  intro l
  induction l with
  | nil => intro h; exact absurd rfl h
  | cons x xs ih =>
    intro _
    by_cases hxs : xs = []
    · subst hxs
      refine ⟨x, List.mem_cons_self _ _, ?_⟩
      intro b hb
      rcases List.mem_cons.mp hb with rfl | hb
      · exact le_refl _
      · cases hb
    · obtain ⟨a, ha, hmin⟩ := ih hxs
      by_cases hc : m x ≤ m a
      · refine ⟨x, List.mem_cons_self _ _, ?_⟩
        intro b hb
        rcases List.mem_cons.mp hb with rfl | hb
        · exact le_refl _
        · exact le_trans hc (hmin b hb)
      · refine ⟨a, List.mem_cons_of_mem _ ha, ?_⟩
        intro b hb
        rcases List.mem_cons.mp hb with rfl | hb
        · exact le_of_lt (Nat.lt_of_not_le hc)
        · exact hmin b hb

theorem exists_eligible {g : Graph} {m : String → Nat} (hm : Measured g m)
    {skillNames ordered rem : List String}
    (hinv : ∀ p, p ∈ skillNames → p ∈ ordered ∨ p ∈ rem) (hne : rem ≠ []) :
    ∃ s ∈ rem, eligible g skillNames ordered s = true := by
  obtain ⟨s, hs, hmin⟩ := exists_min_rank m rem hne
  refine ⟨s, hs, eligible_iff.mpr ?_⟩
  intro p hp
  by_cases ho : p ∈ ordered
  · exact Or.inl ho
  · right
    intro hin
    have hrem : p ∈ rem := (hinv p hin).resolve_left ho
    have h1 : m s ≤ m p := hmin p hrem
    have h2 : m p < m s := hm s p hp
    omega

theorem loGo_good {g : Graph} {m : String → Nat} (hm : Measured g m)
    (skillNames : List String) :
    ∀ (fuel : Nat) (rem ordered : List String), rem.length ≤ fuel →
      (∀ p, p ∈ skillNames → p ∈ ordered ∨ p ∈ rem) →
      GoodAcc g skillNames [] ordered →
      GoodAcc g skillNames [] (loGo g skillNames fuel ordered rem) := by
  intro fuel
  induction fuel with
  | zero =>
    intro rem ordered hlen _ hgood
    have hnil : rem = [] := List.length_eq_zero.mp (Nat.le_zero.mp hlen)
    subst hnil
    exact hgood
  | succ fuel ih =>
    intro rem ordered hlen hinv hgood
    cases rem with
    | nil => exact hgood
    | cons r0 rest =>
      obtain ⟨a, h1, h2, h3⟩ := onePass_spec g skillNames (r0 :: rest) ordered
      unfold loGo
      by_cases hlen2 : (onePass g skillNames ordered (r0 :: rest)).2.length
          = (r0 :: rest).length
      · exfalso
        obtain ⟨heq, hall⟩ := onePass_stall g skillNames (r0 :: rest) ordered hlen2
        obtain ⟨s, hs, helig⟩ := exists_eligible hm hinv (by simp)
        rw [hall s hs] at helig
        simp at helig
      · rw [if_neg hlen2]
        have hlt : (onePass g skillNames ordered (r0 :: rest)).2.length
            < (r0 :: rest).length := lt_of_le_of_ne h3.length_le hlen2
        apply ih
        · omega
        · intro p hin
          rcases hinv p hin with ho | hr
          · left
            rw [h1]
            exact List.mem_append_left _ ho
          · rcases List.mem_append.mp (h2.mem_iff.mp hr) with ha | hp2
            · left
              rw [h1]
              exact List.mem_append_right _ ha
            · right
              exact hp2
        · exact onePass_good g skillNames (r0 :: rest) ordered hgood

theorem goodAcc_infix (g : Graph) (skillNames : List String) :
    ∀ (l1 pre l2 : List String) (s : String),
      GoodAcc g skillNames pre (l1 ++ s :: l2) →
      ∀ p ∈ lookupPrereqs g s, p ∈ skillNames → p ∈ pre ++ l1 := by
  intro l1
  induction l1 with
  | nil =>
    intro pre l2 s hgood p hp hin
    simpa using hgood.1 p hp hin
  | cons x xs ih =>
    intro pre l2 s hgood p hp hin
    have := ih (pre ++ [x]) l2 s hgood.2 p hp hin
    rw [List.append_assoc] at this
    simpa using this

theorem measured_of_table {g : Graph} {m : String → Nat}
    (h : ∀ kv ∈ g, ∀ p ∈ kv.2, m p < m kv.1) : Measured g m := by
  intro s p hp
  unfold lookupPrereqs at hp
  cases hf : g.find? (fun kv => decide (kv.1 = s)) with
  | none => rw [hf] at hp; cases hp
  | some kv =>
    rw [hf] at hp
    have hmem := List.mem_of_find?_eq_some hf
    have hpred := List.find?_some hf
    have hkey : kv.1 = s := by simpa using hpred
    have hlt := h kv hmem p hp
    rwa [hkey] at hlt

theorem frontend_measured : Measured frontendPrereqs frontendRank :=
  measured_of_table (by decide)

theorem backend_measured : Measured backendPrereqs backendRank :=
  measured_of_table (by decide)

theorem fullstack_measured : Measured fullstackPrereqs fullstackRank :=
  measured_of_table (by decide)

theorem learnOrderCore_ordering {g : Graph} {m : String → Nat} (hm : Measured g m)
    (skillNames : List String) :
    ∀ s ∈ skillNames, (∀ p ∈ lookupPrereqs g s, p ∈ skillNames) →
      ∀ p ∈ lookupPrereqs g s,
        (learnOrderCore g skillNames).indexOf p
          < (learnOrderCore g skillNames).indexOf s := by
  intro s hs hclosed p hp
  have hperm : (learnOrderCore g skillNames).Perm (dedupFirst skillNames) :=
    learnOrderCore_perm_dedup g skillNames
  have hnd : (learnOrderCore g skillNames).Nodup :=
    hperm.nodup_iff.mpr (dedupFirst_nodup skillNames)
  have hgood : GoodAcc g skillNames [] (learnOrderCore g skillNames) := by
    unfold learnOrderCore
    exact loGo_good hm skillNames (2 * skillNames.length) (dedupFirst skillNames) []
      (le_trans (dedupFirst_length_le _) (by omega))
      (fun p2 hin => Or.inr ((dedupFirst_mem _ _).mpr hin))
      trivial
  have hsout : s ∈ learnOrderCore g skillNames :=
    hperm.mem_iff.mpr ((dedupFirst_mem _ _).mpr hs)
  obtain ⟨l1, l2, hdecomp⟩ := List.mem_iff_append.mp hsout
  have hs_notin_l1 : s ∉ l1 := by
    rw [hdecomp] at hnd
    have hdis : l1.Disjoint (s :: l2) := List.disjoint_of_nodup_append hnd
    intro hmem
    exact hdis hmem (List.mem_cons_self _ _)
  have hp_in_l1 : p ∈ l1 := by
    have := goodAcc_infix g skillNames l1 [] l2 s (hdecomp ▸ hgood) p hp (hclosed p hp)
    simpa using this
  rw [hdecomp]
  have h1 : (l1 ++ s :: l2).indexOf p = l1.indexOf p := List.indexOf_append_of_mem hp_in_l1
  have h2 : (l1 ++ s :: l2).indexOf s = l1.length + (s :: l2).indexOf s :=
    List.indexOf_append_of_not_mem hs_notin_l1
  rw [h1, h2, List.indexOf_cons_self]
  have h3 : l1.indexOf p < l1.length := List.indexOf_lt_length.mpr hp_in_l1
  omega

/-- C2: for every graph — cyclic ones included — and every list of
distinct skill names, the learning-order loop (with its hard pass budget
of `2 × |input|`) returns every input skill exactly once: the output is
a permutation of the input; the same holds for `getLearningOrder` on
every track. Moreover, whenever a pass places zero skills while some
remain, the loop appends exactly the remaining skills in sorted
(lexicographic) order and stops. -/
theorem getLearningOrder_terminates :
    (∀ (g : Graph) (skillNames : List String), skillNames.Nodup →
      (learnOrderCore g skillNames).Perm skillNames) ∧
    (∀ (track : String) (skillNames : List String), skillNames.Nodup →
      (getLearningOrder track skillNames).Perm skillNames) ∧
    (∀ (g : Graph) (skillNames ordered : List String) (r0 : String)
        (rest : List String) (fuel : Nat),
      onePass g skillNames ordered (r0 :: rest) = (ordered, r0 :: rest) →
      loGo g skillNames (fuel + 1) ordered (r0 :: rest)
        = ordered ++ ((r0 :: rest).insertionSort (· ≤ ·)) ∧
      List.Sorted (· ≤ ·) ((r0 :: rest).insertionSort (· ≤ ·)) ∧
      ((r0 :: rest).insertionSort (· ≤ ·)).Perm (r0 :: rest)) := by
  have hcore : ∀ (g : Graph) (skillNames : List String), skillNames.Nodup →
      (learnOrderCore g skillNames).Perm skillNames := by
    intro g skillNames hnd
    have h := learnOrderCore_perm_dedup g skillNames
    rwa [dedupFirst_eq_self hnd] at h
  refine ⟨hcore, ?_, ?_⟩
  · intro track skillNames hnd
    unfold getLearningOrder
    cases PREREQUISITES track with
    | none => exact List.Perm.refl _
    | some g => exact hcore g skillNames hnd
  · intro g skillNames ordered r0 rest fuel hpass
    exact ⟨loGo_flush g skillNames ordered r0 rest fuel hpass,
      List.sorted_insertionSort _ _, List.perm_insertionSort _ _⟩

/-- C2 instance: a direct two-skill prerequisite cycle terminates with
both skills exactly once, via the sorted flush. -/
theorem getLearningOrder_terminates_witness :
    (learnOrderCore [("A", ["B"]), ("B", ["A"])] ["B", "A"]).Perm ["B", "A"] ∧
    loGo [("A", ["B"]), ("B", ["A"])] ["B", "A"] 4 [] ["B", "A"]
      = [] ++ ((["B", "A"] : List String).insertionSort (· ≤ ·)) :=
  ⟨getLearningOrder_terminates.1 [("A", ["B"]), ("B", ["A"])] ["B", "A"] (by decide),
   (getLearningOrder_terminates.2.2 [("A", ["B"]), ("B", ["A"])] ["B", "A"] [] "B" ["A"] 3
     (by decide)).1⟩

/-- C1: `getLearningOrder` returns exactly the input skills (the same
set, and a permutation whenever the input has no duplicates), and every
input skill whose direct prerequisites — per the track's prerequisite
graph — all lie in the input has all of those prerequisites strictly
before it in the output; in particular for track `frontend` and input
`[React, JavaScript, HTML, CSS]`, both `HTML` and `JavaScript` appear
strictly before `React`. -/
theorem getLearningOrder_ordering :
    (∀ (track : String) (skillNames : List String),
      (∀ s, s ∈ getLearningOrder track skillNames ↔ s ∈ skillNames) ∧
      (skillNames.Nodup → (getLearningOrder track skillNames).Perm skillNames) ∧
      (∀ s ∈ skillNames, (∀ p ∈ getPrerequisites track s, p ∈ skillNames) →
        ∀ p ∈ getPrerequisites track s,
          (getLearningOrder track skillNames).indexOf p
            < (getLearningOrder track skillNames).indexOf s)) ∧
    ((getLearningOrder "frontend" ["React", "JavaScript", "HTML", "CSS"]).indexOf "HTML"
        < (getLearningOrder "frontend" ["React", "JavaScript", "HTML", "CSS"]).indexOf "React"
      ∧ (getLearningOrder "frontend" ["React", "JavaScript", "HTML", "CSS"]).indexOf "JavaScript"
        < (getLearningOrder "frontend" ["React", "JavaScript", "HTML", "CSS"]).indexOf "React") := by
  constructor
  · intro track skillNames
    have hmain : ∀ (g : Graph) (m : String → Nat), Measured g m →
        PREREQUISITES track = some g →
        (∀ s, s ∈ getLearningOrder track skillNames ↔ s ∈ skillNames) ∧
        (skillNames.Nodup → (getLearningOrder track skillNames).Perm skillNames) ∧
        (∀ s ∈ skillNames, (∀ p ∈ getPrerequisites track s, p ∈ skillNames) →
          ∀ p ∈ getPrerequisites track s,
            (getLearningOrder track skillNames).indexOf p
              < (getLearningOrder track skillNames).indexOf s) := by
      intro g m hm hpre
      have hout : getLearningOrder track skillNames = learnOrderCore g skillNames := by
        unfold getLearningOrder
        rw [hpre]
      have hgp : ∀ s, getPrerequisites track s = lookupPrereqs g s := by
        intro s
        unfold getPrerequisites
        rw [hpre]
      refine ⟨?_, ?_, ?_⟩
      · intro s
        rw [hout, (learnOrderCore_perm_dedup g skillNames).mem_iff, dedupFirst_mem]
      · intro hnd
        rw [hout]
        have h := learnOrderCore_perm_dedup g skillNames
        rwa [dedupFirst_eq_self hnd] at h
      · intro s hs hclosed p hp
        rw [hgp] at hclosed hp
        rw [hout]
        exact learnOrderCore_ordering hm skillNames s hs hclosed p hp
    by_cases h1 : track = "frontend"
    · exact hmain frontendPrereqs frontendRank frontend_measured (by rw [h1]; rfl)
    · by_cases h2 : track = "backend"
      · exact hmain backendPrereqs backendRank backend_measured (by rw [h2]; rfl)
      · by_cases h3 : track = "fullstack"
        · exact hmain fullstackPrereqs fullstackRank fullstack_measured (by rw [h3]; rfl)
        · have hpre : PREREQUISITES track = none := by
            unfold PREREQUISITES
            rw [if_neg h1, if_neg h2, if_neg h3]
          have hout : getLearningOrder track skillNames = skillNames := by
            unfold getLearningOrder
            rw [hpre]
          have hgp : ∀ s, getPrerequisites track s = [] := by
            intro s
            unfold getPrerequisites
            rw [hpre]
          refine ⟨fun s => by rw [hout], fun _ => by rw [hout], ?_⟩
          intro s hs hclosed p hp
          rw [hgp] at hp
          cases hp
  · constructor <;> decide

/-- C1 instance: the ordering guarantee applied to the frontend input
`[React, JavaScript, HTML, CSS]` for the skill `CSS` (whose only
prerequisite `HTML` is in the input), together with the concrete
HTML/JavaScript-before-React facts. -/
theorem getLearningOrder_ordering_witness :
    ((getLearningOrder "frontend" ["React", "JavaScript", "HTML", "CSS"]).indexOf "HTML"
      < (getLearningOrder "frontend" ["React", "JavaScript", "HTML", "CSS"]).indexOf "CSS") ∧
    ((getLearningOrder "frontend" ["React", "JavaScript", "HTML", "CSS"]).indexOf "HTML"
      < (getLearningOrder "frontend" ["React", "JavaScript", "HTML", "CSS"]).indexOf "React") :=
  ⟨(getLearningOrder_ordering.1 "frontend" ["React", "JavaScript", "HTML", "CSS"]).2.2
      "CSS" (by decide) (by decide) "HTML" (by decide),
   getLearningOrder_ordering.2.1⟩
